import Mathlib

/-!
# Activity tracker: `flutter_tracker/linux/activity_tracker.c`

A shallow embedding of the X11 activity tracker and the properties its
specification states about it.

Modelling conventions.

* The two file-scope variables `activity` and `display` (and `xi_opcode`) become the
  fields of an explicit state record `Tracker`; every C function is a function on
  that record.  `display == NULL` is `none`.
* What the X server answers is an explicit argument: the replies to the three
  calls of `init_tracking` (`XReplies`), the events handed out by `XNextEvent`
  during one call of `process_events` (a list of `XEvent`), and the keymap
  consulted by `XkbKeycodeToKeysym` together with libm's `sqrt` (`Platform`).
* The counter record is generic in the type `Z` of its `int` fields and the type
  `D` of its `double` fields; the code only uses `0`, `1`, `+`, `*` and `sqrt` on
  them.  Statements that only move or add values hold for every `Z` and `D`.
* `CInt` is the 32-bit two's complement `int` and `Double` the IEEE 754 binary64
  `double` of the platform, with rounding to nearest, ties to even.  Statements
  that compare or evaluate counters are made on these; `libm` is the platform
  with the correctly rounded `sqrt`.
-/

namespace ActivityTracker

set_option linter.unusedSectionVars false

set_option exponentiation.threshold 20000

set_option maxRecDepth 4000

/-! ## Machine numbers

The platform the tracker is built for (Linux, x86-64) gives `int` 32 bits in
two's complement and `double` the IEEE 754 binary64 format, with arithmetic
rounded to nearest, ties to even, and a correctly rounded `sqrt`. -/

/-- Smallest value of the C type `int`. -/
def INT_MIN : Int := -2147483648

/-- Largest value of the C type `int`. -/
def INT_MAX : Int := 2147483647

/-- The C type `int`: an integer between `INT_MIN` and `INT_MAX`. -/
structure CInt where
  val : Int
  range : INT_MIN ≤ val ∧ val ≤ INT_MAX
deriving DecidableEq

/-- The `int` with the low 32 bits of `x`: the value `x` reduced modulo `2^32`
into the range of `int`.  This is what the compiled code leaves in the register
when a signed operation passes `INT_MAX` (undefined in C itself). -/
def CInt.ofInt (x : Int) : CInt :=
  { val := (x + 2147483648) % 4294967296 - 2147483648,
    range := by unfold INT_MIN INT_MAX; omega }

instance : Zero CInt := ⟨CInt.ofInt 0⟩

instance : One CInt := ⟨CInt.ofInt 1⟩

instance : Add CInt := ⟨fun a b => CInt.ofInt (a.val + b.val)⟩

instance : Neg CInt := ⟨fun a => CInt.ofInt (- a.val)⟩

instance : LE CInt := ⟨fun a b => a.val ≤ b.val⟩

instance (a b : CInt) : Decidable (a ≤ b) := inferInstanceAs (Decidable (a.val ≤ b.val))

/-- Doubling search for the bit length: the first `i` from the given one with
`n < 2 ^ 2 ^ i`. -/
def bitlen_level (n : Nat) : Nat → Nat → Nat
  | 0, i => i
  | fuel + 1, i => if n < 2 ^ 2 ^ i then i else bitlen_level n fuel (i + 1)

/-- Binary search for the bit length: the largest `k` below `acc + 2 ^ i` with
`2 ^ k ≤ n`, given `2 ^ acc ≤ n`. -/
def bitlen_search (n : Nat) : Nat → Nat → Nat
  | 0, acc => acc
  | i + 1, acc =>
    if 2 ^ (acc + 2 ^ i) ≤ n then bitlen_search n i (acc + 2 ^ i) else bitlen_search n i acc

/-- Number of binary digits of `n`: the least `b` with `n < 2 ^ b`. -/
def bitlen (n : Nat) : Nat :=
  if n = 0 then 0 else bitlen_search n (bitlen_level n n 0) 0 + 1

/-- A magnitude whose binary digits below the leading 53 are all zero. -/
def fits (n : Nat) : Prop := n % 2 ^ (bitlen n - 53) = 0

/-- Magnitudes of the finite doubles, counted in units of `2^-1074` (the
smallest positive double): at most 53 significant bits, and below `2^2098`
(the largest finite double is `(2^53 - 1) * 2^2045` units). -/
def is_double (n : Nat) : Bool :=
  decide (n < 2 ^ 2098) && decide (n % 2 ^ (bitlen n - 53) = 0)

/-- Rounding to nearest, ties to even: the multiple of `2^-1074` with at most 53
significant bits that is nearest to `N / 2 ^ k` units, as a number of units. -/
def round_nearest_even (N k : Nat) : Nat :=
  let s := max k (bitlen N - 53)
  let q := N / 2 ^ s
  let r := N % 2 ^ s
  if 2 ^ s < 2 * r ∨ (2 * r = 2 ^ s ∧ q % 2 = 1) then (q + 1) * 2 ^ (s - k)
  else q * 2 ^ (s - k)

/-- The C type `double`: IEEE 754 binary64.  `fin neg n _` is the finite value
`(-1)^neg * n * 2^-1074` (both zeros included), `inf neg` is an infinity, and
`nan` stands for every NaN. -/
inductive Double where
  | nan
  | inf (neg : Bool)
  | fin (neg : Bool) (n : Nat) (h : is_double n = true)
deriving DecidableEq

/-- The double with sign `neg` nearest to `N / 2 ^ k` units of `2^-1074`; an
infinity when the rounded magnitude is beyond the largest finite double. -/
def to_double (neg : Bool) (N k : Nat) : Double :=
  if h : is_double (round_nearest_even N k) = true then
    Double.fin neg (round_nearest_even N k) h
  else Double.inf neg

/-- Newton iteration for the integer square root, from a guess `x` that is not
below the root. -/
def isqrt_iter (n : Nat) : Nat → Nat → Nat
  | 0, x => x
  | fuel + 1, x => if (x + n / x) / 2 < x then isqrt_iter n fuel ((x + n / x) / 2) else x

/-- Integer square root: the largest `r` with `r * r ≤ n`. -/
def isqrt (n : Nat) : Nat :=
  if n = 0 then 0
  else isqrt_iter n (2 ^ ((bitlen n + 1) / 2)) (2 ^ ((bitlen n + 1) / 2))

namespace Double

/-- The double of a natural number, such as the literal `3.0`. -/
def ofNat (n : Nat) : Double := to_double false (n * 2 ^ 1074) 0

/-- The double with the given 64-bit pattern (sign, 11 exponent bits, 52
fraction bits). -/
def ofBits (w : Nat) : Double :=
  let neg := decide ((w / 2 ^ 63) % 2 = 1)
  let e := (w / 2 ^ 52) % 2048
  let f := w % 2 ^ 52
  if e = 2047 then (if f = 0 then inf neg else nan)
  else if e = 0 then to_double neg f 0
  else to_double neg ((2 ^ 52 + f) * 2 ^ (e - 1)) 0

/-- Addition of doubles: the exact sum, rounded. -/
def add : Double → Double → Double
  | nan, _ => nan
  | _, nan => nan
  | inf a, inf b => if a = b then inf a else nan
  | inf a, fin _ _ _ => inf a
  | fin _ _ _, inf b => inf b
  | fin a n _, fin b m _ =>
    if a = b then to_double a (n + m) 0
    else if n = m then to_double false 0 0
    else if m < n then to_double a (n - m) 0
    else to_double b (m - n) 0

/-- Multiplication of doubles: the exact product, rounded. -/
def mul : Double → Double → Double
  | nan, _ => nan
  | _, nan => nan
  | inf a, inf b => inf (xor a b)
  | inf a, fin b m _ => if m = 0 then nan else inf (xor a b)
  | fin a n _, inf b => if n = 0 then nan else inf (xor a b)
  | fin a n _, fin b m _ => to_double (xor a b) (n * m) 1074

/-- The function `sqrt` of libm: the exact square root, rounded.  The integer
root of `n * 2^1074` is the root in units of `2^-1074`; its doubling plus a
sticky bit for an inexact root is rounded with one bit more. -/
def sqrt : Double → Double
  | nan => nan
  | inf neg => if neg then nan else inf false
  | fin neg n _ =>
    if n = 0 then to_double neg 0 0
    else if neg then nan
    else
      to_double false
        (2 * isqrt (n * 2 ^ 1074)
          + (if isqrt (n * 2 ^ 1074) * isqrt (n * 2 ^ 1074) = n * 2 ^ 1074 then 0 else 1))
        1

/-- The value of a finite double in units of `2^-1074`; `0` for the others. -/
def scaled : Double → Int
  | nan => 0
  | inf _ => 0
  | fin neg n _ => if neg then - (n : Int) else (n : Int)

/-- The value of a finite double as a rational number; `0` for the others. -/
def toRat (x : Double) : ℚ := (x.scaled : ℚ) / 2 ^ 1074

/-- The comparison `x <= y` of C: false as soon as one side is a NaN. -/
def le : Double → Double → Bool
  | nan, _ => false
  | _, nan => false
  | inf a, inf b => a || !b
  | inf a, fin _ _ _ => a
  | fin _ _ _, inf b => !b
  | fin a n h, fin b m h' => decide ((fin a n h).scaled ≤ (fin b m h').scaled)

/-- Whether the double is a NaN. -/
def isNaN : Double → Bool
  | nan => true
  | _ => false

/-- Whether the double is finite. -/
def isFinite : Double → Bool
  | fin _ _ _ => true
  | _ => false

/-- Whether the double is not a NaN and has a clear sign bit (`+0.0`, a
positive finite value or `+∞`). -/
def signClear : Double → Bool
  | inf neg => !neg
  | fin neg _ _ => !neg
  | nan => false

instance : Zero Double := ⟨to_double false 0 0⟩

instance : One Double := ⟨ofNat 1⟩

instance : Add Double := ⟨add⟩

instance : Mul Double := ⟨mul⟩

instance : LE Double := ⟨fun x y => le x y = true⟩

instance (x y : Double) : Decidable (x ≤ y) := inferInstanceAs (Decidable (le x y = true))

end Double

/-! ## Constants of the X11 headers -/

/-- Event type of every extension event carried in a cookie: `X.h`. -/
def GenericEvent : Int := 35

/-- Raw key press event number: `XI2.h`. -/
def XI_RawKeyPress : Nat := 13

/-- Raw button press event number: `XI2.h`. -/
def XI_RawButtonPress : Nat := 15

/-- Raw motion event number: `XI2.h`. -/
def XI_RawMotion : Nat := 17

/-- Device id standing for all master devices: `XI2.h`. -/
def XIAllMasterDevices : Int := 1

/-- Keysym of the Return key: `keysymdef.h`. -/
def XK_Return : Nat := 0xff0d

/-- Keysym of the keypad Enter key: `keysymdef.h`. -/
def XK_KP_Enter : Nat := 0xff8d

/-- Status value of a successful request: `X.h`. -/
def Success : Int := 0

/-- Number of mask bytes needed for event number `event`: `((event) >> 3) + 1`. -/
def XIMaskLen (event : Nat) : Nat := (event >>> 3) + 1

/-- Sets the bit of `event` in a byte mask: `ptr[event >> 3] |= (1 << (event & 7))`. -/
def XISetMask (ptr : List Nat) (event : Nat) : List Nat :=
  ptr.set (event >>> 3) (ptr.getD (event >>> 3) 0 ||| (1 <<< (event &&& 7)))

/-- Tests the bit of `event` in a byte mask: `ptr[event >> 3] & (1 << (event & 7))`. -/
def XIMaskIsSet (ptr : List Nat) (event : Nat) : Bool :=
  (ptr.getD (event >>> 3) 0 &&& (1 <<< (event &&& 7))) != 0

/-! ## Data model -/

/-- The counter record `ActivityData`, fields in the order of the C struct. -/
structure ActivityData (Z D : Type) where
  key_count : Z
  mouse_distance : D
  left_click_count : Z
  right_click_count : Z
  scroll_amount : D
  enter_key_count : Z
  last_mouse_x : Z
  last_mouse_y : Z

/-- An open connection as the program sees it through its `Display*`: which
connection it is, the device id and byte mask last passed to `XISelectEvents`
on the root window (`none` while nothing was selected), and whether the
selection was flushed by `XSync`. -/
structure Display where
  conn : Nat
  selected : Option (Int × List Nat)
  synced : Bool

/-- The file-scope state: `activity`, `display` and `xi_opcode`. -/
structure Tracker (Z D : Type) where
  activity : ActivityData Z D
  display : Option Display
  xi_opcode : Int

/-- Payload of a raw event, `XIRawEvent`: `detail`, the bytes of
`valuators.mask` (`valuators.mask_len` is the length of the list) and the
array `raw_values`. -/
structure XIRawEvent (D : Type) where
  detail : Int
  valuators_mask : List Nat
  raw_values : Nat → D

/-- One event returned by `XNextEvent`, seen as its cookie: `type`,
`extension`, `evtype` and the result of `XGetEventData` (`none` when it
returns `False`). -/
structure XEvent (D : Type) where
  type : Int
  extension : Int
  evtype : Int
  data : Option (XIRawEvent D)

/-- Replies of the server to the calls of `init_tracking`: the connection
returned by `XOpenDisplay` (`none` for `NULL`), the result of
`XQueryExtension` with the major opcode it stores, and the status of
`XIQueryVersion`. -/
structure XReplies where
  XOpenDisplay : Option Nat
  XQueryExtension_present : Bool
  XQueryExtension_opcode : Int
  XIQueryVersion : Int

/-- Library functions the event loop calls: `sqrt` of libm and
`XkbKeycodeToKeysym` of the open connection, as a function of the key code
passed (an `int`; its conversion to the parameter type is the callee's), the
group and the level.  The result is a `KeySym`, `0` being `NoSymbol`. -/
structure Platform (D : Type) where
  sqrt : D → D
  XkbKeycodeToKeysym : Int → Nat → Nat → Nat

section Code

variable {Z D : Type} [Zero Z] [One Z] [Add Z] [Neg Z] [Zero D] [One D] [Add D] [Mul D]

/-- Initial values of the file-scope variables:
`activity = {0, 0.0, 0, 0, 0.0, 0, -1, -1}`, `display = NULL`. -/
def initial : Tracker Z D :=
  { activity :=
      { key_count := 0, mouse_distance := 0, left_click_count := 0,
        right_click_count := 0, scroll_amount := 0, enter_key_count := 0,
        last_mouse_x := -1, last_mouse_y := -1 },
    display := none,
    xi_opcode := 0 }

/-- The byte mask built in `init_tracking`: `XIMaskLen(XI_RawMotion)` zero
bytes with the three raw event bits set. -/
def init_mask : List Nat :=
  XISetMask
    (XISetMask
      (XISetMask (List.replicate (XIMaskLen XI_RawMotion) 0) XI_RawKeyPress)
      XI_RawMotion)
    XI_RawButtonPress

/-- The function `init_tracking`: returns the C result (`1` or `0`) and the
state it leaves. -/
def init_tracking (x : XReplies) (t : Tracker Z D) : Int × Tracker Z D :=
  match x.XOpenDisplay with
  | none => (0, { t with display := none })
  | some c =>
    let t1 : Tracker Z D :=
      { t with display := some { conn := c, selected := none, synced := false } }
    let t2 : Tracker Z D := { t1 with xi_opcode := x.XQueryExtension_opcode }
    if !x.XQueryExtension_present then (0, t2)
    else if x.XIQueryVersion ≠ Success then (0, t2)
    else
      (1, { t2 with
              display := some { conn := c,
                                selected := some (XIAllMasterDevices, init_mask),
                                synced := true } })

/-- The key symbol loop of the `XI_RawKeyPress` case:
`for (lvl = 0; lvl < 2 && ks == 0; lvl++) ks = XkbKeycodeToKeysym(display, keycode, 0, lvl)`,
started with `ks = 0`. -/
def keysym_loop (P : Platform D) (keycode : Int) : Nat :=
  (List.range 2).foldl
    (fun ks lvl => if ks = 0 then P.XkbKeycodeToKeysym keycode 0 lvl else ks)
    0

/-- The `case XI_RawKeyPress` of the switch. -/
def case_RawKeyPress (P : Platform D) (raw : XIRawEvent D) (a : ActivityData Z D) :
    ActivityData Z D :=
  let a1 : ActivityData Z D := { a with key_count := a.key_count + 1 }
  let keycode := raw.detail
  let ks := keysym_loop P keycode
  let a2 : ActivityData Z D :=
    if ks = XK_Return ∨ ks = XK_KP_Enter then
      { a1 with enter_key_count := a1.enter_key_count + 1 }
    else a1
  if ks = 0 ∧ (keycode = 36 ∨ keycode = 104) then
    { a2 with enter_key_count := a2.enter_key_count + 1 }
  else a2

/-- One iteration of the valuator loop on `(dx, dy, nvalues)` for axis `i`. -/
def valuator_step (valuators : List Nat) (raw_values : Nat → D) (acc : D × D × Nat)
    (i : Nat) : D × D × Nat :=
  if XIMaskIsSet valuators i then
    let dx := if i = 0 then raw_values acc.2.2 else acc.1
    let dy := if i = 1 then raw_values acc.2.2 else acc.2.1
    (dx, dy, acc.2.2 + 1)
  else acc

/-- The valuator loop of the `XI_RawMotion` case, `i` from `0` up to
`mask_len * 8`: the final `(dx, dy, nvalues)`. -/
def valuator_loop (raw : XIRawEvent D) : D × D × Nat :=
  (List.range (raw.valuators_mask.length * 8)).foldl
    (valuator_step raw.valuators_mask raw.raw_values) (0, 0, 0)

/-- The `case XI_RawMotion` of the switch. -/
def case_RawMotion (P : Platform D) (raw : XIRawEvent D) (a : ActivityData Z D) :
    ActivityData Z D :=
  let r := valuator_loop raw
  let dx := r.1
  let dy := r.2.1
  let distance := P.sqrt (dx * dx + dy * dy)
  { a with mouse_distance := a.mouse_distance + distance }

/-- The `case XI_RawButtonPress` of the switch. -/
def case_RawButtonPress (raw : XIRawEvent D) (a : ActivityData Z D) : ActivityData Z D :=
  let button := raw.detail
  if button = 1 then { a with left_click_count := a.left_click_count + 1 }
  else if button = 3 then { a with right_click_count := a.right_click_count + 1 }
  else if button = 4 then { a with scroll_amount := a.scroll_amount + 1 }
  else if button = 5 then { a with scroll_amount := a.scroll_amount + 1 }
  else a

/-- The `switch (ev.xcookie.evtype)` of `process_events`. -/
def switch_evtype (P : Platform D) (evtype : Int) (raw : XIRawEvent D)
    (a : ActivityData Z D) : ActivityData Z D :=
  if evtype = (XI_RawKeyPress : Int) then case_RawKeyPress P raw a
  else if evtype = (XI_RawMotion : Int) then case_RawMotion P raw a
  else if evtype = (XI_RawButtonPress : Int) then case_RawButtonPress raw a
  else a

/-- Body of the `while (XPending(display))` loop for one event. -/
def loop_body (P : Platform D) (t : Tracker Z D) (ev : XEvent D) : Tracker Z D :=
  if ev.type = GenericEvent ∧ ev.extension = t.xi_opcode then
    match ev.data with
    | some raw => { t with activity := switch_evtype P ev.evtype raw t.activity }
    | none => t
  else t

/-- The function `process_events`; `pending` is the sequence of events
`XNextEvent` returns while `XPending` is non-zero. -/
def process_events (P : Platform D) (pending : List (XEvent D)) (t : Tracker Z D) :
    Tracker Z D :=
  match t.display with
  | none => t
  | some _ => pending.foldl (loop_body P) t

/-- The function `get_activity_data`: the two values stored through the
pointers. -/
def get_activity_data (t : Tracker Z D) : Z × D :=
  (t.activity.key_count, t.activity.mouse_distance)

/-- The function `get_extended_activity_data`: the six values stored through
the pointers, in parameter order. -/
def get_extended_activity_data (t : Tracker Z D) : Z × D × Z × Z × D × Z :=
  (t.activity.key_count, t.activity.mouse_distance, t.activity.left_click_count,
   t.activity.right_click_count, t.activity.scroll_amount, t.activity.enter_key_count)

/-- The function `reset_activity`. -/
def reset_activity (t : Tracker Z D) : Tracker Z D :=
  { t with
      activity :=
        { t.activity with
            key_count := 0, mouse_distance := 0, left_click_count := 0,
            right_click_count := 0, scroll_amount := 0, enter_key_count := 0 } }

/-- The function `cleanup_tracking`. -/
def cleanup_tracking (t : Tracker Z D) : Tracker Z D :=
  match t.display with
  | some _ => { t with display := none }
  | none => t

/-- An event of the XInput2 extension as the loop accepts it: a cookie of type
`GenericEvent` for extension `opcode` whose data `XGetEventData` delivers. -/
def raw_event (opcode : Int) (evtype : Nat) (raw : XIRawEvent D) : XEvent D :=
  { type := GenericEvent, extension := opcode, evtype := (evtype : Int), data := some raw }

/-- The symbol a key code resolves to, in the words of the specification: the
result at level 0 when it is not null, otherwise the result at level 1 (null
when neither level resolves). -/
def first_nonnull_symbol (P : Platform D) (keycode : Int) : Nat :=
  if P.XkbKeycodeToKeysym keycode 0 0 ≠ 0 then P.XkbKeycodeToKeysym keycode 0 0
  else P.XkbKeycodeToKeysym keycode 0 1

/-- Horizontal displacement of a raw motion event in the words of the
specification: `values[0]` if bit 0 of the valuator mask is set, `0` otherwise. -/
def packed_dx (raw : XIRawEvent D) : D :=
  if XIMaskIsSet raw.valuators_mask 0 then raw.raw_values 0 else 0

/-- Vertical displacement of a raw motion event in the words of the
specification: `values[1]` if bits 0 and 1 are both set, `values[0]` if of the
two only bit 1 is set, `0` if bit 1 is clear. -/
def packed_dy (raw : XIRawEvent D) : D :=
  if XIMaskIsSet raw.valuators_mask 1 then
    (if XIMaskIsSet raw.valuators_mask 0 then raw.raw_values 1 else raw.raw_values 0)
  else 0

/-- The calls a host can make before a successful `init_tracking`. -/
inductive Call (D : Type) where
  | process_events (pending : List (XEvent D))
  | get_activity_data
  | get_extended_activity_data
  | cleanup_tracking

/-- Effect of one call on the file-scope state; the two accessors only read. -/
def Call.run (P : Platform D) (c : Call D) (t : Tracker Z D) : Tracker Z D :=
  match c with
  | Call.process_events pending => ActivityTracker.process_events P pending t
  | Call.get_activity_data => t
  | Call.get_extended_activity_data => t
  | Call.cleanup_tracking => ActivityTracker.cleanup_tracking t

/-- Effect of a sequence of calls, first call first. -/
def run_calls (P : Platform D) (calls : List (Call D)) (t : Tracker Z D) : Tracker Z D :=
  calls.foldl (fun s c => c.run P s) t

/-- Successive calls of `process_events`, one per queue of pending events. -/
def drain_all (P : Platform D) (queues : List (List (XEvent D))) (t : Tracker Z D) :
    Tracker Z D :=
  queues.foldl (fun s q => process_events P q s) t

/-- Every one of the six counters of `a` is at most its value in `b`. -/
def counters_le [LE Z] [LE D] (a b : ActivityData Z D) : Prop :=
  a.key_count ≤ b.key_count ∧ a.enter_key_count ≤ b.enter_key_count
    ∧ a.left_click_count ≤ b.left_click_count
    ∧ a.right_click_count ≤ b.right_click_count
    ∧ a.mouse_distance ≤ b.mouse_distance ∧ a.scroll_amount ≤ b.scroll_amount

/-- Each `int` counter of `a` can take `n` more increments without passing
`INT_MAX`. -/
def has_room (n : Nat) (a : ActivityData CInt Double) : Prop :=
  a.key_count.val + (n : Int) ≤ INT_MAX ∧ a.enter_key_count.val + (n : Int) ≤ INT_MAX
    ∧ a.left_click_count.val + (n : Int) ≤ INT_MAX
    ∧ a.right_click_count.val + (n : Int) ≤ INT_MAX

/-- Neither `double` counter of `a` is a NaN, and `mouse_distance` is not `-∞`. -/
def doubles_ordinary (a : ActivityData CInt Double) : Prop :=
  a.mouse_distance.isNaN = false ∧ a.mouse_distance ≠ Double.inf true
    ∧ a.scroll_amount.isNaN = false

/-- The displacement a raw motion event decodes to has no NaN component. -/
def motion_values_ok (ev : XEvent Double) : Prop :=
  ∀ raw, ev.data = some raw → ev.evtype = (XI_RawMotion : Int) →
    (packed_dx raw).isNaN = false ∧ (packed_dy raw).isNaN = false

end Code

/-! ## Concrete inputs -/

/-- A keymap in which key code 36 is Return at level 0 and key code 38 is `a`. -/
def sample_keymap (kc : Int) (group lvl : Nat) : Nat :=
  if kc = 36 ∧ group = 0 ∧ lvl = 0 then XK_Return
  else if kc = 38 ∧ group = 0 then 0x61
  else 0

/-- The connection of the sample tracker: all three raw event classes selected. -/
def sample_display : Display :=
  { conn := 1, selected := some (XIAllMasterDevices, init_mask), synced := true }

/-- The platform of the build: `sqrt` of libm on doubles, with the given keymap. -/
def libm (keymap : Int → Nat → Nat → Nat) : Platform Double :=
  { sqrt := Double.sqrt, XkbKeycodeToKeysym := keymap }

/-- A tracker with an open connection, opcode 131 and counters at zero. -/
def sample_tracker (Z D : Type) [Zero Z] [One Z] [Neg Z] [Zero D] : Tracker Z D :=
  { activity :=
      { key_count := 0, mouse_distance := 0, left_click_count := 0,
        right_click_count := 0, scroll_amount := 0, enter_key_count := 0,
        last_mouse_x := -1, last_mouse_y := -1 },
    display := some sample_display,
    xi_opcode := 131 }

/-- A raw event with the given `detail`, mask bytes and packed values. -/
def sample_raw {D : Type} [Zero D] (detail : Int) (mask : List Nat) (values : List D) :
    XIRawEvent D :=
  { detail := detail, valuators_mask := mask, raw_values := fun i => values.getD i 0 }

/-- A raw key-press event with key code `k`, as the sample tracker accepts it. -/
def key_event {D : Type} [Zero D] (k : Int) : XEvent D :=
  raw_event 131 XI_RawKeyPress (sample_raw k [] [])

/-- A raw button-press event with button `b`, as the sample tracker accepts it. -/
def button_event {D : Type} [Zero D] (b : Int) : XEvent D :=
  raw_event 131 XI_RawButtonPress (sample_raw b [] [])

/-- A raw motion event with the given valuator mask and packed values, as the
sample tracker accepts it. -/
def motion_event {D : Type} [Zero D] (mask : List Nat) (values : List D) : XEvent D :=
  raw_event 131 XI_RawMotion (sample_raw 0 mask values)

/-- The sample tracker with `key_count` at `INT_MAX`. -/
def tracker_at_INT_MAX : Tracker CInt Double :=
  { sample_tracker CInt Double with
      activity :=
        { (sample_tracker CInt Double).activity with key_count := CInt.ofInt 2147483647 } }

/-- The sample tracker with `mouse_distance` set to `x`. -/
def tracker_with_distance (x : Double) : Tracker CInt Double :=
  { sample_tracker CInt Double with
      activity := { (sample_tracker CInt Double).activity with mouse_distance := x } }

/-- The sample tracker with `scroll_amount` set to `x`. -/
def tracker_with_scroll (x : Double) : Tracker CInt Double :=
  { sample_tracker CInt Double with
      activity := { (sample_tracker CInt Double).activity with scroll_amount := x } }

/-- The sample tracker after one diagonal motion, `dx = dy = 1.0`. -/
def after_diagonal : Tracker CInt Double :=
  process_events (libm sample_keymap) [motion_event [3] [1, 1]] (sample_tracker CInt Double)

/-- Replies with which `init_tracking` opens connection 1 and then finds the
XInput extension missing. -/
def replies_no_extension : XReplies :=
  { XOpenDisplay := some 1, XQueryExtension_present := false,
    XQueryExtension_opcode := 0, XIQueryVersion := 0 }

/-- Replies with which `init_tracking` opens connection 1, finds the extension
and then fails the version query (status `BadRequest`, 1). -/
def replies_bad_version : XReplies :=
  { XOpenDisplay := some 1, XQueryExtension_present := true,
    XQueryExtension_opcode := 131, XIQueryVersion := 1 }

/-! ## Lemmas on the machine numbers -/

theorem bitlen_level_spec (n : Nat) : ∀ (fuel i : Nat), n ≤ fuel + i →
    n < 2 ^ 2 ^ bitlen_level n fuel i := by
  intro fuel
  induction fuel with
  | zero =>
    intro i h
    unfold bitlen_level
    have h1 : i < 2 ^ i := Nat.lt_two_pow i
    have h2 : 2 ^ i < 2 ^ 2 ^ i := Nat.lt_two_pow _
    omega
  | succ fuel ih =>
    intro i h
    unfold bitlen_level
    split
    · assumption
    · exact ih (i + 1) (by omega)

theorem bitlen_search_spec (n : Nat) : ∀ (i acc : Nat), 2 ^ acc ≤ n →
    n < 2 ^ (acc + 2 ^ i) →
    2 ^ bitlen_search n i acc ≤ n ∧ n < 2 ^ (bitlen_search n i acc + 1) := by
  intro i
  induction i with
  | zero =>
    intro acc h1 h2
    exact ⟨h1, h2⟩
  | succ i ih =>
    intro acc h1 h2
    unfold bitlen_search
    split
    · rename_i hc
      refine ih _ hc ?_
      have e : acc + 2 ^ i + 2 ^ i = acc + 2 ^ (i + 1) := by rw [pow_succ]; omega
      rw [e]
      exact h2
    · rename_i hc
      exact ih _ h1 (by omega)

theorem bitlen_zero : bitlen 0 = 0 := by
  simp [bitlen]

theorem lt_two_pow_bitlen (n : Nat) : n < 2 ^ bitlen n := by
  unfold bitlen
  split
  · rename_i h0
    subst h0
    decide
  · rename_i h0
    refine (bitlen_search_spec n _ 0 (by simpa using Nat.pos_of_ne_zero h0) ?_).2
    rw [Nat.zero_add]
    exact bitlen_level_spec n n 0 (by omega)

theorem two_pow_bitlen_le (n : Nat) (h : n ≠ 0) : 2 ^ (bitlen n - 1) ≤ n := by
  unfold bitlen
  rw [if_neg h, Nat.add_sub_cancel]
  refine (bitlen_search_spec n _ 0 (by simpa using Nat.pos_of_ne_zero h) ?_).1
  rw [Nat.zero_add]
  exact bitlen_level_spec n n 0 (by omega)

theorem bitlen_le_iff (n k : Nat) : bitlen n ≤ k ↔ n < 2 ^ k := by
  constructor
  · intro h
    exact lt_of_lt_of_le (lt_two_pow_bitlen n) (Nat.pow_le_pow_right (by decide) h)
  · intro h
    by_contra hk
    have hk' : k ≤ bitlen n - 1 := by omega
    have hn : n ≠ 0 := by
      intro h0
      subst h0
      have : bitlen 0 = 0 := bitlen_zero
      omega
    have := two_pow_bitlen_le n hn
    have := Nat.pow_le_pow_right (show 0 < 2 by decide) hk'
    omega


theorem lt_two_pow_shift (N : Nat) : N < 2 ^ (53 + (bitlen N - 53)) :=
  (bitlen_le_iff N _).mp (by omega)

theorem two_pow_shift_le (N : Nat) (hs : 0 < bitlen N - 53) :
    2 ^ (52 + (bitlen N - 53)) ≤ N := by
  have hN : N ≠ 0 := by
    intro h0
    subst h0
    have : bitlen 0 = 0 := bitlen_zero
    omega
  have h := two_pow_bitlen_le N hN
  have e : bitlen N - 1 = 52 + (bitlen N - 53) := by omega
  rwa [e] at h

theorem round_add_eq (N : Nat) :
    round_nearest_even N 0
      = if 2 ^ (bitlen N - 53) < 2 * (N % 2 ^ (bitlen N - 53))
            ∨ (2 * (N % 2 ^ (bitlen N - 53)) = 2 ^ (bitlen N - 53)
                ∧ N / 2 ^ (bitlen N - 53) % 2 = 1)
        then (N / 2 ^ (bitlen N - 53) + 1) * 2 ^ (bitlen N - 53)
        else N / 2 ^ (bitlen N - 53) * 2 ^ (bitlen N - 53) := by
  simp [round_nearest_even]

theorem floor_le_round (N : Nat) :
    N / 2 ^ (bitlen N - 53) * 2 ^ (bitlen N - 53) ≤ round_nearest_even N 0 := by
  rw [round_add_eq]
  split
  · exact Nat.mul_le_mul_right _ (Nat.le_succ _)
  · exact le_rfl

theorem round_le_ceil (N : Nat) :
    round_nearest_even N 0
      ≤ N / 2 ^ (bitlen N - 53) * 2 ^ (bitlen N - 53) + 2 ^ (bitlen N - 53) := by
  rw [round_add_eq]
  split
  · rw [Nat.add_mul, Nat.one_mul]
  · exact Nat.le_add_right _ _

theorem round_of_mod_eq_zero (N : Nat) (h : N % 2 ^ (bitlen N - 53) = 0) :
    round_nearest_even N 0 = N := by
  rw [round_add_eq, h]
  have hpos : 0 < 2 ^ (bitlen N - 53) := Nat.two_pow_pos _
  have hc : ¬ (2 ^ (bitlen N - 53) < 2 * 0
      ∨ (2 * 0 = 2 ^ (bitlen N - 53) ∧ N / 2 ^ (bitlen N - 53) % 2 = 1)) := by
    rintro (h1 | ⟨h1, _⟩) <;> omega
  rw [if_neg hc]
  exact Nat.div_mul_cancel (Nat.dvd_of_mod_eq_zero h)

/-- Rounding leaves a representable magnitude as it is. -/
theorem round_of_fits (N : Nat) (h : fits N) : round_nearest_even N 0 = N :=
  round_of_mod_eq_zero N h

theorem dvd_of_fits_of_le (a s : Nat) (ha : fits a) (hs : 2 ^ (52 + s) ≤ a) :
    2 ^ s ∣ a := by
  have hb : ¬ bitlen a ≤ 52 + s := by
    rw [bitlen_le_iff]
    omega
  have hle : s ≤ bitlen a - 53 := by omega
  exact Nat.dvd_trans (Nat.pow_dvd_pow 2 hle) (Nat.dvd_of_mod_eq_zero ha)

/-- Rounding does not go below a representable magnitude that the exact value
reaches. -/
theorem le_round (a N : Nat) (ha : fits a) (h : a ≤ N) : a ≤ round_nearest_even N 0 := by
  refine le_trans ?_ (floor_le_round N)
  generalize hs : bitlen N - 53 = s
  have hpos : 0 < 2 ^ s := Nat.two_pow_pos _
  by_cases hlow : a < 2 ^ (52 + s)
  · rcases Nat.eq_zero_or_pos s with h0 | h0
    · subst h0
      simpa using h
    · have hN := two_pow_shift_le N (by omega)
      rw [hs] at hN
      have hq : 2 ^ 52 ≤ N / 2 ^ s := by
        rw [Nat.le_div_iff_mul_le hpos, ← pow_add]
        exact hN
      calc a ≤ 2 ^ 52 * 2 ^ s := by rw [← pow_add]; exact le_of_lt hlow
        _ ≤ N / 2 ^ s * 2 ^ s := Nat.mul_le_mul_right _ hq
  · obtain ⟨c, hc⟩ := dvd_of_fits_of_le a s ha (by omega)
    have hcq : c ≤ N / 2 ^ s := by
      rw [Nat.le_div_iff_mul_le hpos, Nat.mul_comm, ← hc]
      exact h
    rw [hc, Nat.mul_comm]
    exact Nat.mul_le_mul_right _ hcq

/-- Rounding does not go above a representable magnitude that bounds the exact
value. -/
theorem round_le (a N : Nat) (ha : fits a) (h : N ≤ a) : round_nearest_even N 0 ≤ a := by
  by_cases hr : N % 2 ^ (bitlen N - 53) = 0
  · rw [round_of_mod_eq_zero N hr]
    exact h
  · refine le_trans (round_le_ceil N) ?_
    have hlt := lt_two_pow_shift N
    have hspos : 0 < bitlen N - 53 := by
      rcases Nat.eq_zero_or_pos (bitlen N - 53) with h0 | h0
      · rw [h0] at hr
        simp [Nat.mod_one] at hr
      · exact h0
    have hge := two_pow_shift_le N hspos
    generalize bitlen N - 53 = s at hr hlt hge
    have hpos : 0 < 2 ^ s := Nat.two_pow_pos _
    have hq : N / 2 ^ s < 2 ^ 53 := by
      rw [Nat.div_lt_iff_lt_mul hpos, ← pow_add]
      exact hlt
    by_cases hbig : 2 ^ (53 + s) ≤ a
    · calc N / 2 ^ s * 2 ^ s + 2 ^ s = (N / 2 ^ s + 1) * 2 ^ s := by
            rw [Nat.add_mul, Nat.one_mul]
        _ ≤ 2 ^ 53 * 2 ^ s := Nat.mul_le_mul_right _ hq
        _ = 2 ^ (53 + s) := by rw [← pow_add]
        _ ≤ a := hbig
    · obtain ⟨c, hc⟩ := dvd_of_fits_of_le a s ha (le_trans hge h)
      have hNlt : N / 2 ^ s * 2 ^ s < N := by
        have := Nat.div_add_mod N (2 ^ s)
        have hr' : 0 < N % 2 ^ s := Nat.pos_of_ne_zero hr
        rw [Nat.mul_comm] at this
        omega
      have hcq : N / 2 ^ s < c := by
        by_contra hcon
        have hle : c ≤ N / 2 ^ s := by omega
        have : c * 2 ^ s ≤ N / 2 ^ s * 2 ^ s := Nat.mul_le_mul_right _ hle
        rw [Nat.mul_comm] at hc
        omega
      calc N / 2 ^ s * 2 ^ s + 2 ^ s = (N / 2 ^ s + 1) * 2 ^ s := by
            rw [Nat.add_mul, Nat.one_mul]
        _ ≤ c * 2 ^ s := Nat.mul_le_mul_right _ hcq
        _ = a := by rw [hc, Nat.mul_comm]


theorem two_pow_dvd_round (N : Nat) : 2 ^ (bitlen N - 53) ∣ round_nearest_even N 0 := by
  rw [round_add_eq]
  split
  · exact Nat.dvd_mul_left _ _
  · exact Nat.dvd_mul_left _ _

/-- The result of rounding is a representable magnitude. -/
theorem fits_round (N : Nat) : fits (round_nearest_even N 0) := by
  rcases Nat.eq_zero_or_pos (bitlen N - 53) with h0 | hspos
  · have hmod : N % 2 ^ (bitlen N - 53) = 0 := by
      rw [h0]
      simp [Nat.mod_one]
    rw [round_of_mod_eq_zero N hmod]
    exact hmod
  · have hlt := lt_two_pow_shift N
    have hge := two_pow_shift_le N hspos
    have hfl := floor_le_round N
    have hce := round_le_ceil N
    have hdvd := two_pow_dvd_round N
    generalize round_nearest_even N 0 = r at hfl hce hdvd ⊢
    generalize bitlen N - 53 = s at hlt hge hfl hce hdvd hspos
    have hpos : 0 < 2 ^ s := Nat.two_pow_pos _
    have hq1 : 2 ^ 52 ≤ N / 2 ^ s := by
      rw [Nat.le_div_iff_mul_le hpos, ← pow_add]
      exact hge
    have hq2 : N / 2 ^ s < 2 ^ 53 := by
      rw [Nat.div_lt_iff_lt_mul hpos, ← pow_add]
      exact hlt
    have hlow : 2 ^ (52 + s) ≤ r := by
      calc 2 ^ (52 + s) = 2 ^ 52 * 2 ^ s := by rw [pow_add]
        _ ≤ N / 2 ^ s * 2 ^ s := Nat.mul_le_mul_right _ hq1
        _ ≤ r := hfl
    have hup : r ≤ 2 ^ (53 + s) := by
      calc r ≤ N / 2 ^ s * 2 ^ s + 2 ^ s := hce
        _ = (N / 2 ^ s + 1) * 2 ^ s := by rw [Nat.add_mul, Nat.one_mul]
        _ ≤ 2 ^ 53 * 2 ^ s := Nat.mul_le_mul_right _ hq2
        _ = 2 ^ (53 + s) := by rw [← pow_add]
    have hb1 : ¬ bitlen r ≤ 52 + s := by
      rw [bitlen_le_iff]
      omega
    unfold fits
    rcases Nat.lt_or_ge r (2 ^ (53 + s)) with hlt' | hge'
    · have hb2 : bitlen r ≤ 53 + s := (bitlen_le_iff r _).mpr hlt'
      have e : bitlen r - 53 = s := by omega
      rw [e]
      exact Nat.mod_eq_zero_of_dvd hdvd
    · have hr : r = 2 ^ (53 + s) := le_antisymm hup hge'
      have hb2 : bitlen r ≤ 54 + s := by
        rw [bitlen_le_iff, hr]
        exact Nat.pow_lt_pow_right (by decide) (by omega)
      have hb3 : ¬ bitlen r ≤ 53 + s := by
        rw [bitlen_le_iff, hr]
        omega
      have e : bitlen r - 53 = s + 1 := by omega
      rw [e, hr]
      exact Nat.mod_eq_zero_of_dvd (Nat.pow_dvd_pow 2 (by omega))

theorem is_double_iff (n : Nat) : is_double n = true ↔ n < 2 ^ 2098 ∧ fits n := by
  simp [is_double, fits]


theorem isqrt_iter_spec (n : Nat) (hn : 0 < n) : ∀ (fuel x : Nat), 0 < x → x ≤ fuel →
    n < (x + 1) * (x + 1) →
    isqrt_iter n fuel x * isqrt_iter n fuel x ≤ n
      ∧ n < (isqrt_iter n fuel x + 1) * (isqrt_iter n fuel x + 1) := by
  intro fuel
  induction fuel with
  | zero =>
    intro x hx hf
    omega
  | succ fuel ih =>
    intro x hx hf hlt
    unfold isqrt_iter
    have hq1 : n / x * x ≤ n := Nat.div_mul_le_self n x
    have hq2 : n < (n / x + 1) * x := by
      have h1 := Nat.div_add_mod n x
      have h2 := Nat.mod_lt n hx
      rw [Nat.add_mul, Nat.one_mul, Nat.mul_comm]
      omega
    have hq0 : x = 1 → 0 < n / x := by
      intro h1
      subst h1
      simpa using hn
    generalize n / x = q at hq0 hq1 hq2 ⊢
    by_cases hc : (x + q) / 2 < x
    · rw [if_pos hc]
      have hy0 : 0 < (x + q) / 2 := by
        by_contra h0
        have hx1 : x = 1 := by omega
        have := hq0 hx1
        omega
      refine ih _ hy0 (by omega) ?_
      have h2 : x + q ≤ 2 * ((x + q) / 2) + 1 := by omega
      generalize (x + q) / 2 = y at h2 hc hy0 ⊢
      nlinarith [sq_nonneg ((x : Int) - q - 1), hq2, h2]
    · rw [if_neg hc]
      refine ⟨?_, hlt⟩
      have hqx : x ≤ q := by omega
      calc x * x ≤ q * x := Nat.mul_le_mul_right _ hqx
        _ ≤ n := hq1

/-- The integer square root: `isqrt n` is the largest `r` with `r * r ≤ n`. -/
theorem isqrt_spec (n : Nat) :
    isqrt n * isqrt n ≤ n ∧ n < (isqrt n + 1) * (isqrt n + 1) := by
  unfold isqrt
  by_cases h0 : n = 0
  · subst h0
    simp
  · rw [if_neg h0]
    refine isqrt_iter_spec n (Nat.pos_of_ne_zero h0) _ _ (Nat.two_pow_pos _) le_rfl ?_
    have h := lt_two_pow_bitlen n
    have h2 : 2 ^ bitlen n ≤ 2 ^ ((bitlen n + 1) / 2) * 2 ^ ((bitlen n + 1) / 2) := by
      rw [← pow_add]
      exact Nat.pow_le_pow_right (by decide) (by omega)
    generalize 2 ^ ((bitlen n + 1) / 2) = X at h2 ⊢
    have h3 : X * X ≤ (X + 1) * (X + 1) := Nat.mul_le_mul (Nat.le_succ _) (Nat.le_succ _)
    omega

theorem isqrt_eq_sqrt (n : Nat) : isqrt n = Nat.sqrt n :=
  Nat.eq_sqrt.mpr (isqrt_spec n)

theorem CInt.one_val : (1 : CInt).val = 1 := by decide

theorem CInt.le_iff (a b : CInt) : a ≤ b ↔ a.val ≤ b.val := Iff.rfl

/-- Below `INT_MAX` the machine increment is the successor. -/
theorem CInt.add_one_val (c : CInt) (h : c.val < INT_MAX) : (c + 1).val = c.val + 1 := by
  show (c.val + (1 : CInt).val + 2147483648) % 4294967296 - 2147483648 = c.val + 1
  have hr := c.range
  rw [CInt.one_val]
  unfold INT_MIN INT_MAX at *
  omega

theorem Double.add_def (x y : Double) : x + y = Double.add x y := rfl

theorem Double.mul_def (x y : Double) : x * y = Double.mul x y := rfl

theorem Double.le_def (x y : Double) : x ≤ y ↔ Double.le x y = true := Iff.rfl

theorem to_double_cases (neg : Bool) (N k : Nat) :
    to_double neg N k = Double.inf neg
      ∨ ∃ h, to_double neg N k = Double.fin neg (round_nearest_even N k) h := by
  unfold to_double
  split
  · rename_i h
    exact Or.inr ⟨h, rfl⟩
  · exact Or.inl rfl

theorem to_double_of_lt (neg : Bool) (N : Nat) (h : round_nearest_even N 0 < 2 ^ 2098) :
    ∃ h', to_double neg N 0 = Double.fin neg (round_nearest_even N 0) h' := by
  have hd : is_double (round_nearest_even N 0) = true :=
    (is_double_iff _).mpr ⟨h, fits_round N⟩
  refine ⟨hd, ?_⟩
  unfold to_double
  rw [dif_pos hd]

/-- A magnitude that is a double is its own rounding. -/
theorem to_double_eq (neg : Bool) (N : Nat) (h : is_double N = true) :
    to_double neg N 0 = Double.fin neg N h := by
  have hr : round_nearest_even N 0 = N := round_of_fits N ((is_double_iff N).mp h).2
  have key : ∀ r, r = N →
      (if h' : is_double r = true then Double.fin neg r h' else Double.inf neg)
        = Double.fin neg N h := by
    intro r hr'
    subst hr'
    rw [dif_pos h]
  exact key _ hr

theorem signClear_to_double (N k : Nat) : (to_double false N k).signClear = true := by
  rcases to_double_cases false N k with e | ⟨h, e⟩ <;> rw [e] <;> rfl

theorem Double.one_def : (1 : Double) = Double.ofNat 1 := rfl

theorem Double.signClear_one : (1 : Double).signClear = true := by
  rw [Double.one_def]
  exact signClear_to_double _ _

theorem Double.signClear_mul_self (x : Double) (hx : x.isNaN = false) :
    (x * x).signClear = true := by
  rw [Double.mul_def]
  cases x with
  | nan => simp [Double.isNaN] at hx
  | inf a => cases a <;> rfl
  | fin a n h =>
    show (to_double (xor a a) (n * n) 1074).signClear = true
    rw [Bool.xor_self]
    exact signClear_to_double _ _

theorem Double.signClear_add (x y : Double) (hx : x.signClear = true)
    (hy : y.signClear = true) : (x + y).signClear = true := by
  rw [Double.add_def]
  cases x with
  | nan => simp [Double.signClear] at hx
  | inf a =>
    cases a with
    | true => simp [Double.signClear] at hx
    | false =>
      cases y with
      | nan => simp [Double.signClear] at hy
      | inf b =>
        cases b with
        | true => simp [Double.signClear] at hy
        | false => rfl
      | fin b m h' => rfl
  | fin a n h =>
    cases a with
    | true => simp [Double.signClear] at hx
    | false =>
      cases y with
      | nan => simp [Double.signClear] at hy
      | inf b =>
        cases b with
        | true => simp [Double.signClear] at hy
        | false => rfl
      | fin b m h' =>
        cases b with
        | true => simp [Double.signClear] at hy
        | false =>
          show (to_double false (n + m) 0).signClear = true
          exact signClear_to_double _ _

theorem Double.signClear_sqrt (x : Double) (hx : x.signClear = true) :
    (Double.sqrt x).signClear = true := by
  cases x with
  | nan => simp [Double.signClear] at hx
  | inf a =>
    cases a with
    | true => simp [Double.signClear] at hx
    | false => rfl
  | fin a n h =>
    cases a with
    | true => simp [Double.signClear] at hx
    | false =>
      show (if n = 0 then to_double false 0 0
            else if false = true then Double.nan
            else to_double false _ 1).signClear = true
      by_cases h0 : n = 0
      · rw [if_pos h0]
        exact signClear_to_double _ _
      · rw [if_neg h0, if_neg Bool.false_ne_true]
        exact signClear_to_double _ _

theorem Double.double_le_self (x : Double) (hx : x.isNaN = false) : x ≤ x := by
  rw [Double.le_def]
  cases x with
  | nan => simp [Double.isNaN] at hx
  | inf a => cases a <;> rfl
  | fin a n h => simp [Double.le]

theorem Double.le_trans (x y z : Double) (hxy : x ≤ y) (hyz : y ≤ z) : x ≤ z := by
  rw [Double.le_def] at *
  cases x with
  | nan => simp [Double.le] at hxy
  | inf a =>
    cases y with
    | nan => simp [Double.le] at hxy
    | inf b =>
      cases z with
      | nan => simp [Double.le] at hyz
      | inf c => cases a <;> cases b <;> cases c <;> simp_all [Double.le]
      | fin c k h3 => cases a <;> cases b <;> simp_all [Double.le]
    | fin b m h2 =>
      cases z with
      | nan => simp [Double.le] at hyz
      | inf c => cases a <;> cases c <;> simp_all [Double.le]
      | fin c k h3 => cases a <;> simp_all [Double.le]
  | fin a n h1 =>
    cases y with
    | nan => simp [Double.le] at hxy
    | inf b =>
      cases z with
      | nan => simp [Double.le] at hyz
      | inf c => cases b <;> cases c <;> simp_all [Double.le]
      | fin c k h3 => cases b <;> simp_all [Double.le]
    | fin b m h2 =>
      cases z with
      | nan => simp [Double.le] at hyz
      | inf c => cases c <;> simp_all [Double.le]
      | fin c k h3 =>
        simp only [Double.le, decide_eq_true_eq] at *
        exact Int.le_trans hxy hyz

/-- Adding a double with a clear sign bit does not lower a double that is not a
NaN, and gives no NaN, unless `+∞` is added to `-∞`. -/
theorem Double.le_add (x d : Double) (hx : x.isNaN = false) (hd : d.signClear = true)
    (hinf : x ≠ Double.inf true ∨ d.isFinite = true) :
    x ≤ x + d ∧ (x + d).isNaN = false ∧ (x ≠ Double.inf true → x + d ≠ Double.inf true) := by
  rw [Double.le_def, Double.add_def]
  cases x with
  | nan => simp [Double.isNaN] at hx
  | inf a =>
    cases d with
    | nan => simp [Double.signClear] at hd
    | inf b =>
      cases b with
      | true => simp [Double.signClear] at hd
      | false =>
        cases a with
        | true => simp [Double.isFinite] at hinf
        | false => exact ⟨rfl, rfl, by simp [Double.add]⟩
    | fin b m h' =>
      cases a with
      | true => exact ⟨rfl, rfl, by simp⟩
      | false => exact ⟨rfl, rfl, by simp [Double.add]⟩
  | fin a n h =>
    have hn := (is_double_iff n).mp h
    cases d with
    | nan => simp [Double.signClear] at hd
    | inf b =>
      cases b with
      | true => simp [Double.signClear] at hd
      | false => exact ⟨rfl, rfl, by simp [Double.add]⟩
    | fin b m h' =>
      cases b with
      | true => simp [Double.signClear] at hd
      | false =>
        cases a with
        | false =>
          rw [Double.add]
          simp only [if_true]
          rcases to_double_cases false (n + m) 0 with e | ⟨h2, e⟩
          · rw [e]
            exact ⟨rfl, rfl, by simp⟩
          · rw [e]
            refine ⟨?_, rfl, by simp⟩
            have := le_round n (n + m) hn.2 (Nat.le_add_right n m)
            simp only [Double.le, Double.scaled, decide_eq_true_eq]
            simpa using this
        | true =>
          rw [Double.add]
          simp only [Bool.true_eq_false, if_false]
          by_cases hnm : n = m
          · rw [if_pos hnm]
            rcases to_double_cases false 0 0 with e | ⟨h2, e⟩
            · rw [e]
              exact ⟨rfl, rfl, by simp⟩
            · rw [e]
              refine ⟨?_, rfl, by simp⟩
              simp only [Double.le, Double.scaled, decide_eq_true_eq]
              simp only [if_true, Bool.false_eq_true, if_false]
              omega
          · rw [if_neg hnm]
            by_cases hlt : m < n
            · rw [if_pos hlt]
              have hr := round_le n (n - m) hn.2 (Nat.sub_le n m)
              obtain ⟨h2, e⟩ := to_double_of_lt true (n - m) (lt_of_le_of_lt hr hn.1)
              rw [e]
              refine ⟨?_, rfl, by simp⟩
              simp only [Double.le, Double.scaled, decide_eq_true_eq]
              simp only [if_true]
              omega
            · rw [if_neg hlt]
              rcases to_double_cases false (m - n) 0 with e | ⟨h2, e⟩
              · rw [e]
                exact ⟨rfl, rfl, by simp⟩
              · rw [e]
                refine ⟨?_, rfl, by simp⟩
                simp only [Double.le, Double.scaled, decide_eq_true_eq]
                simp only [if_true, Bool.false_eq_true, if_false]
                omega

theorem Double.isFinite_iff (x : Double) :
    x.isFinite = true ↔ ∃ neg n h, x = Double.fin neg n h := by
  cases x with
  | nan => simp [Double.isFinite]
  | inf a => simp [Double.isFinite]
  | fin a n h => exact ⟨fun _ => ⟨a, n, h, rfl⟩, fun _ => rfl⟩

/-- Addition is exact when the exact sum is a double. -/
theorem Double.add_exact (x c y : Double) (hx : x.isFinite = true) (hc : c.isFinite = true)
    (hy : y.isFinite = true) (h : y.scaled = x.scaled + c.scaled) :
    (x + c).isFinite = true ∧ (x + c).scaled = x.scaled + c.scaled := by
  obtain ⟨a, n, hn, rfl⟩ := (Double.isFinite_iff x).mp hx
  obtain ⟨b, m, hm, rfl⟩ := (Double.isFinite_iff c).mp hc
  obtain ⟨s, k, hk, rfl⟩ := (Double.isFinite_iff y).mp hy
  rw [Double.add_def]
  unfold Double.add
  simp only [Double.scaled] at h ⊢
  by_cases hab : a = b
  · subst hab
    rw [if_pos rfl]
    have hkm : k = n + m := by
      cases a <;> cases s <;> simp at h <;> omega
    subst hkm
    rw [to_double_eq a (n + m) hk]
    refine ⟨rfl, ?_⟩
    cases a <;> (simp [Double.scaled]; try omega)
  · rw [if_neg hab]
    by_cases hnm : n = m
    · subst hnm
      rw [if_pos rfl, to_double_eq false 0 (by decide)]
      refine ⟨rfl, ?_⟩
      cases a <;> cases b <;> simp [Double.scaled] at hab ⊢
    · rw [if_neg hnm]
      by_cases hlt : m < n
      · rw [if_pos hlt]
        have hkm : k = n - m := by
          cases a <;> cases b <;> cases s <;> simp at h hab <;> omega
        subst hkm
        rw [to_double_eq a (n - m) hk]
        refine ⟨rfl, ?_⟩
        cases a <;> cases b <;> simp [Double.scaled] at hab ⊢ <;> omega
      · rw [if_neg hlt]
        have hkm : k = m - n := by
          cases a <;> cases b <;> cases s <;> simp at h hab <;> omega
        subst hkm
        rw [to_double_eq b (m - n) hk]
        refine ⟨rfl, ?_⟩
        cases a <;> cases b <;> simp [Double.scaled] at hab ⊢ <;> omega

theorem Double.scaled_of_toRat (x c y : Double) (h : y.toRat = x.toRat + c.toRat) :
    y.scaled = x.scaled + c.scaled := by
  unfold Double.toRat at h
  have hpos : (2 : ℚ) ^ 1074 ≠ 0 := by positivity
  field_simp at h
  exact_mod_cast h

theorem Double.toRat_add_of_scaled (x c : Double)
    (h : (x + c).scaled = x.scaled + c.scaled) : (x + c).toRat = x.toRat + c.toRat := by
  unfold Double.toRat
  rw [h]
  push_cast
  ring

theorem Double.ofNat_three : Double.ofNat 3 = Double.fin false (3 * 2 ^ 1074) (by decide) :=
  to_double_eq false (3 * 2 ^ 1074) (by decide)

theorem Double.ofNat_five : Double.ofNat 5 = Double.fin false (5 * 2 ^ 1074) (by decide) :=
  to_double_eq false (5 * 2 ^ 1074) (by decide)

theorem Double.toRat_three : (Double.ofNat 3).toRat = 3 := by
  rw [Double.ofNat_three]
  simp only [Double.toRat, Double.scaled]
  norm_num

theorem Double.toRat_five : (Double.ofNat 5).toRat = 5 := by
  rw [Double.ofNat_five]
  simp only [Double.toRat, Double.scaled]
  norm_num

theorem Double.isFinite_one : (1 : Double).isFinite = true := by decide

theorem CInt.int_le_self (c : CInt) : c ≤ c := Int.le_refl c.val

theorem CInt.le_add_one (c : CInt) (n : Nat) (h : c.val + ((n + 1 : Nat) : Int) ≤ INT_MAX) :
    c ≤ c + 1 ∧ (c + 1).val + (n : Int) ≤ INT_MAX := by
  have h1 : c.val < INT_MAX := by
    push_cast at h
    omega
  rw [CInt.le_iff, CInt.add_one_val c h1]
  push_cast at h
  constructor <;> omega

theorem CInt.room_succ (c : CInt) (n : Nat) (h : c.val + ((n + 1 : Nat) : Int) ≤ INT_MAX) :
    c.val + (n : Int) ≤ INT_MAX := by
  push_cast at h
  omega

theorem Double.toRat_zero : (0 : Double).toRat = 0 := by
  have h : (0 : Double) = Double.fin false 0 (by decide) := to_double_eq false 0 (by decide)
  rw [h]
  simp [Double.toRat, Double.scaled]

/-- In double arithmetic `sqrt(3.0 * 3.0 + 0.0 * 0.0)` is `3.0`. -/
theorem Double.sqrt_three :
    Double.sqrt (Double.ofNat 3 * Double.ofNat 3 + 0 * 0) = Double.ofNat 3 := by
  decide

/-- In double arithmetic `sqrt(3.0 * 3.0 + 4.0 * 4.0)` is `5.0`. -/
theorem Double.sqrt_three_four :
    Double.sqrt (Double.ofNat 3 * Double.ofNat 3 + Double.ofNat 4 * Double.ofNat 4)
      = Double.ofNat 5 := by
  decide

/-! ## Lemmas on the event loop -/

section Lemmas

variable {Z D : Type} [Zero Z] [One Z] [Add Z] [Neg Z] [Zero D] [One D] [Add D] [Mul D]

theorem keysym_loop_eq (P : Platform D) (keycode : Int) :
    keysym_loop P keycode = first_nonnull_symbol P keycode := by
  unfold keysym_loop first_nonnull_symbol
  have h2 : List.range 2 = [0, 1] := by decide
  rw [h2]
  by_cases h : P.XkbKeycodeToKeysym keycode 0 0 = 0
  · simp [h]
  · simp [h]

theorem process_events_singleton (P : Platform D) (t : Tracker Z D) (d : Display)
    (evtype : Nat) (raw : XIRawEvent D) (hd : t.display = some d) :
    process_events P [raw_event t.xi_opcode evtype raw] t
      = { t with activity := switch_evtype P (evtype : Int) raw t.activity } := by
  simp [process_events, hd, loop_body, raw_event]

theorem switch_RawMotion (P : Platform D) (raw : XIRawEvent D) (a : ActivityData Z D) :
    switch_evtype P (XI_RawMotion : Int) raw a = case_RawMotion P raw a := by
  simp [switch_evtype, XI_RawKeyPress, XI_RawMotion]

theorem XK_Return_ne_zero : XK_Return ≠ 0 := by decide

theorem XK_KP_Enter_ne_zero : XK_KP_Enter ≠ 0 := by decide

theorem case_RawKeyPress_eq (P : Platform D) (raw : XIRawEvent D) (a : ActivityData Z D) :
    case_RawKeyPress P raw a
      = { a with
            key_count := a.key_count + 1,
            enter_key_count :=
              if first_nonnull_symbol P raw.detail = XK_Return
                  ∨ first_nonnull_symbol P raw.detail = XK_KP_Enter
                  ∨ (first_nonnull_symbol P raw.detail = 0
                      ∧ (raw.detail = 36 ∨ raw.detail = 104))
              then a.enter_key_count + 1 else a.enter_key_count } := by
  have hR := XK_Return_ne_zero
  have hK := XK_KP_Enter_ne_zero
  simp only [case_RawKeyPress, keysym_loop_eq]
  by_cases h0 : first_nonnull_symbol P raw.detail = 0
  · by_cases hk : raw.detail = 36 ∨ raw.detail = 104
    · simp [h0, hk, hR.symm, hK.symm]
    · simp [h0, hk, hR.symm, hK.symm]
  · by_cases h1 : first_nonnull_symbol P raw.detail = XK_Return
    · simp [h1, hR]
    · by_cases h2 : first_nonnull_symbol P raw.detail = XK_KP_Enter
      · simp [h2, hK]
      · simp [h0, h1, h2]

theorem valuator_fold_high (m : List Nat) (v : Nat → D) (l : List Nat)
    (hl : ∀ i ∈ l, 2 ≤ i) (acc : D × D × Nat) :
    (l.foldl (valuator_step m v) acc).1 = acc.1
      ∧ (l.foldl (valuator_step m v) acc).2.1 = acc.2.1 := by
  induction l generalizing acc with
  | nil => exact ⟨rfl, rfl⟩
  | cons i l ih =>
    have hi : 2 ≤ i := hl i (List.mem_cons_self i l)
    have hrest : ∀ j ∈ l, 2 ≤ j := fun j hj => hl j (List.mem_cons_of_mem i hj)
    have h0 : i ≠ 0 := by omega
    have h1 : i ≠ 1 := by omega
    have hstep : (valuator_step m v acc i).1 = acc.1
        ∧ (valuator_step m v acc i).2.1 = acc.2.1 := by
      unfold valuator_step
      split
      · simp [h0, h1]
      · exact ⟨rfl, rfl⟩
    rw [List.foldl_cons]
    obtain ⟨ihx, ihy⟩ := ih hrest (valuator_step m v acc i)
    exact ⟨ihx.trans hstep.1, ihy.trans hstep.2⟩

theorem valuator_fold_count (m : List Nat) (v : Nat → D) (l : List Nat)
    (acc : D × D × Nat) :
    (l.foldl (valuator_step m v) acc).2.2
      = acc.2.2 + (l.filter (fun i => XIMaskIsSet m i)).length := by
  induction l generalizing acc with
  | nil => simp
  | cons i l ih =>
    rw [List.foldl_cons, ih]
    unfold valuator_step
    by_cases h : XIMaskIsSet m i = true
    · simp [h, List.filter_cons, Nat.add_assoc, Nat.add_comm 1]
    · simp [h, List.filter_cons]

theorem XIMaskIsSet_nil (i : Nat) : XIMaskIsSet [] i = false := by
  simp [XIMaskIsSet]

theorem range_two_add (k : Nat) :
    List.range (k + 2) = 0 :: 1 :: List.range' 2 k := by
  rw [List.range_eq_range']
  rfl

theorem valuator_loop_eq (raw : XIRawEvent D) :
    (valuator_loop raw).1 = packed_dx raw ∧ (valuator_loop raw).2.1 = packed_dy raw := by
  unfold valuator_loop packed_dx packed_dy
  cases hm : raw.valuators_mask with
  | nil => simp [XIMaskIsSet_nil]
  | cons b bs =>
    have hlen : (b :: bs).length * 8 = (bs.length * 8 + 6) + 2 := by
      simp [List.length_cons]; omega
    rw [hlen, range_two_add, List.foldl_cons, List.foldl_cons]
    have hhigh : ∀ i ∈ List.range' 2 (bs.length * 8 + 6), 2 ≤ i := by
      intro i hi
      exact (List.mem_range'_1.mp hi).1
    obtain ⟨hx, hy⟩ := valuator_fold_high (b :: bs) raw.raw_values _ hhigh
      (valuator_step (b :: bs) raw.raw_values
        (valuator_step (b :: bs) raw.raw_values (0, 0, 0) 0) 1)
    rw [hx, hy]
    unfold valuator_step
    by_cases h0 : XIMaskIsSet (b :: bs) 0 = true
    · by_cases h1 : XIMaskIsSet (b :: bs) 1 = true
      · simp [h0, h1]
      · simp [h0, h1]
    · by_cases h1 : XIMaskIsSet (b :: bs) 1 = true
      · simp [h0, h1]
      · simp [h0, h1]

theorem case_RawMotion_eq (P : Platform D) (raw : XIRawEvent D) (a : ActivityData Z D) :
    case_RawMotion P raw a
      = { a with
          mouse_distance := a.mouse_distance
            + P.sqrt (packed_dx raw * packed_dx raw + packed_dy raw * packed_dy raw) } := by
  unfold case_RawMotion
  simp only [(valuator_loop_eq raw).1, (valuator_loop_eq raw).2]

theorem cleanup_tracking_display (t : Tracker Z D) : (cleanup_tracking t).display = none := by
  unfold cleanup_tracking
  cases h : t.display with
  | none => simpa using h
  | some d => rfl

theorem cleanup_tracking_of_none (t : Tracker Z D) (h : t.display = none) :
    cleanup_tracking t = t := by
  simp [cleanup_tracking, h]

theorem cleanup_tracking_activity (t : Tracker Z D) :
    (cleanup_tracking t).activity = t.activity
      ∧ (cleanup_tracking t).xi_opcode = t.xi_opcode := by
  unfold cleanup_tracking
  cases t.display with
  | none => exact ⟨rfl, rfl⟩
  | some d => exact ⟨rfl, rfl⟩

theorem process_events_display_none (P : Platform D) (pending : List (XEvent D))
    (t : Tracker Z D) (h : t.display = none) : process_events P pending t = t := by
  simp [process_events, h]

theorem process_events_display_some (P : Platform D) (pending : List (XEvent D))
    (t : Tracker Z D) (d : Display) (h : t.display = some d) :
    process_events P pending t = pending.foldl (loop_body P) t := by
  simp [process_events, h]

theorem loop_body_display (P : Platform D) (t : Tracker Z D) (ev : XEvent D) :
    (loop_body P t ev).display = t.display
      ∧ (loop_body P t ev).xi_opcode = t.xi_opcode := by
  unfold loop_body
  split
  · cases ev.data with
    | none => exact ⟨rfl, rfl⟩
    | some raw => exact ⟨rfl, rfl⟩
  · exact ⟨rfl, rfl⟩

theorem foldl_loop_body_display (P : Platform D) (pending : List (XEvent D))
    (t : Tracker Z D) :
    (pending.foldl (loop_body P) t).display = t.display
      ∧ (pending.foldl (loop_body P) t).xi_opcode = t.xi_opcode := by
  induction pending generalizing t with
  | nil => exact ⟨rfl, rfl⟩
  | cons ev rest ih =>
    rw [List.foldl_cons]
    obtain ⟨h1, h2⟩ := ih (loop_body P t ev)
    exact ⟨h1.trans (loop_body_display P t ev).1, h2.trans (loop_body_display P t ev).2⟩

theorem process_events_display (P : Platform D) (pending : List (XEvent D))
    (t : Tracker Z D) :
    (process_events P pending t).display = t.display
      ∧ (process_events P pending t).xi_opcode = t.xi_opcode := by
  cases h : t.display with
  | none =>
    rw [process_events_display_none P pending t h]
    exact ⟨h, rfl⟩
  | some d =>
    rw [process_events_display_some P pending t d h, ← h]
    exact foldl_loop_body_display P pending t

/-- Events are handled one after the other: a queue handled in one call gives
the state that handling its front part and then its back part gives. -/
theorem process_events_append (P : Platform D) (front back : List (XEvent D))
    (t : Tracker Z D) :
    process_events P (front ++ back) t
      = process_events P back (process_events P front t) := by
  cases h : t.display with
  | none =>
    rw [process_events_display_none P _ t h, process_events_display_none P _ t h,
      process_events_display_none P _ t h]
  | some d =>
    have h' : (process_events P front t).display = some d :=
      (process_events_display P front t).1.trans h
    rw [process_events_display_some P back _ d h',
      process_events_display_some P front t d h,
      process_events_display_some P (front ++ back) t d h, List.foldl_append]

theorem init_tracking_no_display (x : XReplies) (t : Tracker Z D)
    (h : x.XOpenDisplay = none) :
    init_tracking x t = (0, { t with display := none }) := by
  simp [init_tracking, h]

theorem init_tracking_success (x : XReplies) (c : Nat) (t : Tracker Z D)
    (h1 : x.XOpenDisplay = some c) (h2 : x.XQueryExtension_present = true)
    (h3 : x.XIQueryVersion = Success) :
    init_tracking x t
      = (1, { t with
                display := some { conn := c,
                                  selected := some (XIAllMasterDevices, init_mask),
                                  synced := true },
                xi_opcode := x.XQueryExtension_opcode }) := by
  simp [init_tracking, h1, h2, h3]

/-- The mask selected by `init_tracking` has exactly the bits of the three raw
event classes. -/
theorem init_mask_bits (i : Nat) :
    XIMaskIsSet init_mask i = true
      ↔ i = XI_RawKeyPress ∨ i = XI_RawButtonPress ∨ i = XI_RawMotion := by
  have hm : init_mask = [0, 160, 2] := by decide
  rw [hm]
  by_cases hi : i < 24
  · interval_cases i <;> decide
  · have h3 : 3 ≤ i >>> 3 := by
      rw [Nat.shiftRight_eq_div_pow]
      omega
    have hget : ([0, 160, 2] : List Nat).getD (i >>> 3) 0 = 0 := by
      rw [List.getD_eq_default]
      exact h3
    have hne : ¬ (i = XI_RawKeyPress ∨ i = XI_RawButtonPress ∨ i = XI_RawMotion) := by
      unfold XI_RawKeyPress XI_RawButtonPress XI_RawMotion
      omega
    have hfalse : XIMaskIsSet [0, 160, 2] i = false := by
      unfold XIMaskIsSet
      rw [hget]
      simp
    simp [hfalse, hne]

theorem run_calls_display_none (P : Platform D) (calls : List (Call D)) (t : Tracker Z D)
    (h : t.display = none) : run_calls P calls t = t := by
  unfold run_calls
  induction calls with
  | nil => rfl
  | cons c cs ih =>
    rw [List.foldl_cons]
    have hc : c.run P t = t := by
      cases c with
      | process_events pending => exact process_events_display_none P pending t h
      | get_activity_data => rfl
      | get_extended_activity_data => rfl
      | cleanup_tracking => exact cleanup_tracking_of_none t h
    rw [hc]
    exact ih

end Lemmas

/-! ## Lemmas on the machine run -/

theorem counters_le_same (a : ActivityData CInt Double) (hd : doubles_ordinary a) :
    counters_le a a :=
  ⟨CInt.int_le_self _, CInt.int_le_self _, CInt.int_le_self _, CInt.int_le_self _,
    Double.double_le_self _ hd.1, Double.double_le_self _ hd.2.2⟩

theorem counters_le_trans {a b c : ActivityData CInt Double} (hab : counters_le a b)
    (hbc : counters_le b c) : counters_le a c :=
  ⟨Int.le_trans hab.1 hbc.1, Int.le_trans hab.2.1 hbc.2.1,
    Int.le_trans hab.2.2.1 hbc.2.2.1, Int.le_trans hab.2.2.2.1 hbc.2.2.2.1,
    Double.le_trans _ _ _ hab.2.2.2.2.1 hbc.2.2.2.2.1,
    Double.le_trans _ _ _ hab.2.2.2.2.2 hbc.2.2.2.2.2⟩

theorem has_room_succ (n : Nat) (a : ActivityData CInt Double) (h : has_room (n + 1) a) :
    has_room n a :=
  ⟨CInt.room_succ _ n h.1, CInt.room_succ _ n h.2.1, CInt.room_succ _ n h.2.2.1,
    CInt.room_succ _ n h.2.2.2⟩

theorem case_RawKeyPress_machine (keymap : Int → Nat → Nat → Nat) (n : Nat)
    (raw : XIRawEvent Double) (a : ActivityData CInt Double) (hroom : has_room (n + 1) a)
    (hd : doubles_ordinary a) :
    counters_le a (case_RawKeyPress (libm keymap) raw a)
      ∧ has_room n (case_RawKeyPress (libm keymap) raw a)
      ∧ doubles_ordinary (case_RawKeyPress (libm keymap) raw a) := by
  rw [case_RawKeyPress_eq]
  have hk := CInt.le_add_one a.key_count n hroom.1
  have he := CInt.le_add_one a.enter_key_count n hroom.2.1
  have hs := has_room_succ n a hroom
  refine ⟨⟨hk.1, ?_, CInt.int_le_self _, CInt.int_le_self _, Double.double_le_self _ hd.1,
    Double.double_le_self _ hd.2.2⟩, ⟨hk.2, ?_, hs.2.2.1, hs.2.2.2⟩, hd⟩
  · show a.enter_key_count ≤ (if _ then a.enter_key_count + 1 else a.enter_key_count)
    split
    · exact he.1
    · exact CInt.int_le_self _
  · show (if _ then a.enter_key_count + 1 else a.enter_key_count).val + (n : Int) ≤ INT_MAX
    split
    · exact he.2
    · exact hs.2.1

theorem case_RawMotion_machine (keymap : Int → Nat → Nat → Nat) (n : Nat)
    (raw : XIRawEvent Double) (a : ActivityData CInt Double) (hroom : has_room (n + 1) a)
    (hd : doubles_ordinary a)
    (hv : (packed_dx raw).isNaN = false ∧ (packed_dy raw).isNaN = false) :
    counters_le a (case_RawMotion (libm keymap) raw a)
      ∧ has_room n (case_RawMotion (libm keymap) raw a)
      ∧ doubles_ordinary (case_RawMotion (libm keymap) raw a) := by
  rw [case_RawMotion_eq]
  have hsign : (Double.sqrt (packed_dx raw * packed_dx raw
      + packed_dy raw * packed_dy raw)).signClear = true :=
    Double.signClear_sqrt _ (Double.signClear_add _ _
      (Double.signClear_mul_self _ hv.1) (Double.signClear_mul_self _ hv.2))
  obtain ⟨h1, h2, h3⟩ := Double.le_add a.mouse_distance _ hd.1 hsign (Or.inl hd.2.1)
  exact ⟨⟨CInt.int_le_self _, CInt.int_le_self _, CInt.int_le_self _, CInt.int_le_self _, h1,
    Double.double_le_self _ hd.2.2⟩, has_room_succ n a hroom, ⟨h2, h3 hd.2.1, hd.2.2⟩⟩

theorem case_RawButtonPress_machine (n : Nat) (raw : XIRawEvent Double)
    (a : ActivityData CInt Double) (hroom : has_room (n + 1) a) (hd : doubles_ordinary a) :
    counters_le a (case_RawButtonPress raw a)
      ∧ has_room n (case_RawButtonPress raw a)
      ∧ doubles_ordinary (case_RawButtonPress raw a) := by
  have hl := CInt.le_add_one a.left_click_count n hroom.2.2.1
  have hr := CInt.le_add_one a.right_click_count n hroom.2.2.2
  have hs := has_room_succ n a hroom
  obtain ⟨s1, s2, _⟩ := Double.le_add a.scroll_amount 1 hd.2.2 Double.signClear_one
    (Or.inr Double.isFinite_one)
  have hscroll : counters_le a { a with scroll_amount := a.scroll_amount + 1 }
      ∧ has_room n { a with scroll_amount := a.scroll_amount + 1 }
      ∧ doubles_ordinary { a with scroll_amount := a.scroll_amount + 1 } :=
    ⟨⟨CInt.int_le_self _, CInt.int_le_self _, CInt.int_le_self _, CInt.int_le_self _,
      Double.double_le_self _ hd.1, s1⟩, hs, ⟨hd.1, hd.2.1, s2⟩⟩
  unfold case_RawButtonPress
  simp only
  split
  · exact ⟨⟨CInt.int_le_self _, CInt.int_le_self _, hl.1, CInt.int_le_self _,
      Double.double_le_self _ hd.1, Double.double_le_self _ hd.2.2⟩,
      ⟨hs.1, hs.2.1, hl.2, hs.2.2.2⟩, hd⟩
  · split
    · exact ⟨⟨CInt.int_le_self _, CInt.int_le_self _, CInt.int_le_self _, hr.1,
        Double.double_le_self _ hd.1, Double.double_le_self _ hd.2.2⟩,
        ⟨hs.1, hs.2.1, hs.2.2.1, hr.2⟩, hd⟩
    · split
      · exact hscroll
      · split
        · exact hscroll
        · exact ⟨counters_le_same a hd, hs, hd⟩

theorem loop_body_machine (keymap : Int → Nat → Nat → Nat) (n : Nat)
    (t : Tracker CInt Double) (ev : XEvent Double) (hroom : has_room (n + 1) t.activity)
    (hd : doubles_ordinary t.activity) (hv : motion_values_ok ev) :
    counters_le t.activity (loop_body (libm keymap) t ev).activity
      ∧ has_room n (loop_body (libm keymap) t ev).activity
      ∧ doubles_ordinary (loop_body (libm keymap) t ev).activity := by
  have hsame : counters_le t.activity t.activity ∧ has_room n t.activity
      ∧ doubles_ordinary t.activity :=
    ⟨counters_le_same _ hd, has_room_succ n _ hroom, hd⟩
  unfold loop_body
  split
  · cases hdata : ev.data with
    | none => exact hsame
    | some raw =>
      show counters_le t.activity (switch_evtype (libm keymap) ev.evtype raw t.activity)
        ∧ has_room n (switch_evtype (libm keymap) ev.evtype raw t.activity)
        ∧ doubles_ordinary (switch_evtype (libm keymap) ev.evtype raw t.activity)
      unfold switch_evtype
      split
      · exact case_RawKeyPress_machine keymap n raw _ hroom hd
      · split
        · rename_i hm
          exact case_RawMotion_machine keymap n raw _ hroom hd (hv raw hdata hm)
        · split
          · exact case_RawButtonPress_machine n raw _ hroom hd
          · exact hsame
  · exact hsame

theorem foldl_loop_body_machine (keymap : Int → Nat → Nat → Nat)
    (pending : List (XEvent Double)) (t : Tracker CInt Double)
    (hroom : has_room pending.length t.activity) (hd : doubles_ordinary t.activity)
    (hv : ∀ ev ∈ pending, motion_values_ok ev) :
    counters_le t.activity (pending.foldl (loop_body (libm keymap)) t).activity := by
  induction pending generalizing t with
  | nil => exact counters_le_same _ hd
  | cons ev rest ih =>
    rw [List.foldl_cons]
    obtain ⟨h1, h2, h3⟩ := loop_body_machine keymap rest.length t ev hroom hd
      (hv ev (List.mem_cons_self ev rest))
    exact counters_le_trans h1
      (ih (loop_body (libm keymap) t ev) h2 h3
        (fun e he => hv e (List.mem_cons_of_mem ev he)))

/-! ## Properties -/

section Properties

variable {Z D : Type} [Zero Z] [One Z] [Add Z] [Neg Z] [Zero D] [One D] [Add D] [Mul D]

/-- C4: after any sequence of `process_events` calls from any starting state,
`reset_activity` leaves each of the six counters at its zero value, so that
`get_extended_activity_data` yields `(0, 0.0, 0, 0, 0.0, 0)`, and it leaves the
connection handle as it was. -/
theorem reset_zeroes_counters (P : Platform D) (queues : List (List (XEvent D)))
    (t : Tracker Z D) :
    (reset_activity (drain_all P queues t)).activity.key_count = 0
      ∧ (reset_activity (drain_all P queues t)).activity.enter_key_count = 0
      ∧ (reset_activity (drain_all P queues t)).activity.left_click_count = 0
      ∧ (reset_activity (drain_all P queues t)).activity.right_click_count = 0
      ∧ (reset_activity (drain_all P queues t)).activity.mouse_distance = 0
      ∧ (reset_activity (drain_all P queues t)).activity.scroll_amount = 0
      ∧ get_extended_activity_data (reset_activity (drain_all P queues t))
          = (0, 0, 0, 0, 0, 0)
      ∧ (reset_activity (drain_all P queues t)).display = (drain_all P queues t).display :=
  ⟨rfl, rfl, rfl, rfl, rfl, rfl, rfl, rfl⟩

/-- C7: with the connection handle absent `process_events` changes nothing,
whatever events are pending; and from the initial state every sequence of
`process_events`, `get_activity_data`, `get_extended_activity_data` and
`cleanup_tracking` calls leaves the state as it was, with both accessors
returning zeros. -/
theorem uninitialised_calls_are_noops (P : Platform D) :
    (∀ (pending : List (XEvent D)) (t : Tracker Z D),
        process_events P pending { t with display := none } = { t with display := none })
      ∧ ∀ calls : List (Call D),
          run_calls P calls (initial : Tracker Z D) = initial
            ∧ get_activity_data (run_calls P calls (initial : Tracker Z D)) = (0, 0)
            ∧ get_extended_activity_data (run_calls P calls (initial : Tracker Z D))
                = (0, 0, 0, 0, 0, 0) := by
  refine ⟨fun pending t => process_events_display_none P pending _ rfl, fun calls => ?_⟩
  rw [run_calls_display_none P calls (initial : Tracker Z D) rfl]
  exact ⟨rfl, rfl, rfl⟩

/-- C8: `cleanup_tracking` leaves the connection handle absent in every state, a
second call changes nothing, a call with the handle already absent (as when
never initialised) changes nothing, and no counter is ever changed. -/
theorem cleanup_tracking_idempotent (t : Tracker Z D) :
    (cleanup_tracking t).display = none
      ∧ cleanup_tracking (cleanup_tracking t) = cleanup_tracking t
      ∧ cleanup_tracking { t with display := none } = { t with display := none }
      ∧ cleanup_tracking (initial : Tracker Z D) = initial
      ∧ (cleanup_tracking t).activity = t.activity :=
  ⟨cleanup_tracking_display t,
    cleanup_tracking_of_none _ (cleanup_tracking_display t),
    cleanup_tracking_of_none _ rfl,
    cleanup_tracking_of_none _ rfl,
    (cleanup_tracking_activity t).1⟩

/-- C10: the valuator loop of a raw motion event decodes densely packed values
in ascending axis order: `dx` is `values[0]` if bit 0 is set and `0` otherwise;
`dy` is `values[1]` if bits 0 and 1 are set, `values[0]` if of the two only bit 1
is set, `0` if bit 1 is clear; every set bit takes one slot; and two events that
agree on bits 0 and 1 and on the first two values add the same amount to
`mouse_distance`, whatever their higher axes are. -/
theorem motion_dense_packing (P : Platform D) (raw : XIRawEvent D) (a : ActivityData Z D) :
    (valuator_loop raw).1
        = (if XIMaskIsSet raw.valuators_mask 0 then raw.raw_values 0 else 0)
      ∧ (valuator_loop raw).2.1
        = (if XIMaskIsSet raw.valuators_mask 1 then
            (if XIMaskIsSet raw.valuators_mask 0 then raw.raw_values 1
             else raw.raw_values 0)
           else 0)
      ∧ (valuator_loop raw).2.2
        = ((List.range (raw.valuators_mask.length * 8)).filter
            (fun i => XIMaskIsSet raw.valuators_mask i)).length
      ∧ ∀ other : XIRawEvent D,
          XIMaskIsSet other.valuators_mask 0 = XIMaskIsSet raw.valuators_mask 0 →
          XIMaskIsSet other.valuators_mask 1 = XIMaskIsSet raw.valuators_mask 1 →
          other.raw_values 0 = raw.raw_values 0 →
          other.raw_values 1 = raw.raw_values 1 →
          case_RawMotion P other a = case_RawMotion P raw a := by
  refine ⟨(valuator_loop_eq raw).1, (valuator_loop_eq raw).2, ?_, ?_⟩
  · unfold valuator_loop
    rw [valuator_fold_count]
    simp
  · intro other h0 h1 hv0 hv1
    rw [case_RawMotion_eq, case_RawMotion_eq]
    unfold packed_dx packed_dy
    rw [h0, h1, hv0, hv1]

/-- C6 (the code at the failing inputs): called in the initial state with a
connection that opens, `init_tracking` returns 0 when the XInput extension is
missing and when the version query fails, and in both cases leaves the
connection handle set, with no event class selected. -/
theorem init_tracking_failure_keeps_handle :
    (init_tracking replies_no_extension (initial : Tracker CInt Double)).1 = 0
      ∧ (init_tracking replies_no_extension (initial : Tracker CInt Double)).2.display
          = some { conn := 1, selected := none, synced := false }
      ∧ (init_tracking replies_bad_version (initial : Tracker CInt Double)).1 = 0
      ∧ (init_tracking replies_bad_version (initial : Tracker CInt Double)).2.display
          = some { conn := 1, selected := none, synced := false } :=
  ⟨rfl, rfl, rfl, rfl⟩

end Properties

section MachineProperties

/-- C3 (amended): processing one raw motion event replaces `mouse_distance` by
the double sum `mouse_distance + sqrt(dx*dx + dy*dy)`, every operation rounded
to the nearest double, and changes nothing else, an absent axis counting as
`0.0`.  With only axis 0 present and `dx = 3.0` the amount added is exactly
`3.0`, with both axes present and `dx = 3.0`, `dy = 4.0` it is exactly `5.0`; and
`mouse_distance` itself grows by exactly that amount whenever it is finite and
the exact sum is the value of a double. -/
theorem motion_adds_rounded_distance {Z : Type} [Zero Z] [One Z] [Add Z] [Neg Z]
    (keymap : Int → Nat → Nat → Nat) (t : Tracker Z Double) (d : Display)
    (raw : XIRawEvent Double) (hd : t.display = some d) :
    process_events (libm keymap) [raw_event t.xi_opcode XI_RawMotion raw] t
        = { t with activity :=
              { t.activity with
                  mouse_distance := t.activity.mouse_distance
                    + Double.sqrt (packed_dx raw * packed_dx raw
                        + packed_dy raw * packed_dy raw) } }
      ∧ (XIMaskIsSet raw.valuators_mask 0 = true →
          XIMaskIsSet raw.valuators_mask 1 = false →
          raw.raw_values 0 = Double.ofNat 3 →
          process_events (libm keymap) [raw_event t.xi_opcode XI_RawMotion raw] t
              = { t with activity :=
                    { t.activity with
                        mouse_distance := t.activity.mouse_distance + Double.ofNat 3 } }
            ∧ (t.activity.mouse_distance.isFinite = true →
                ∀ y : Double, y.isFinite = true →
                  y.toRat = t.activity.mouse_distance.toRat + 3 →
                  (process_events (libm keymap) [raw_event t.xi_opcode XI_RawMotion raw]
                      t).activity.mouse_distance.isFinite = true
                    ∧ (process_events (libm keymap) [raw_event t.xi_opcode XI_RawMotion raw]
                        t).activity.mouse_distance.toRat
                      = t.activity.mouse_distance.toRat + 3))
      ∧ (XIMaskIsSet raw.valuators_mask 0 = true →
          XIMaskIsSet raw.valuators_mask 1 = true →
          raw.raw_values 0 = Double.ofNat 3 → raw.raw_values 1 = Double.ofNat 4 →
          process_events (libm keymap) [raw_event t.xi_opcode XI_RawMotion raw] t
              = { t with activity :=
                    { t.activity with
                        mouse_distance := t.activity.mouse_distance + Double.ofNat 5 } }
            ∧ (t.activity.mouse_distance.isFinite = true →
                ∀ y : Double, y.isFinite = true →
                  y.toRat = t.activity.mouse_distance.toRat + 5 →
                  (process_events (libm keymap) [raw_event t.xi_opcode XI_RawMotion raw]
                      t).activity.mouse_distance.isFinite = true
                    ∧ (process_events (libm keymap) [raw_event t.xi_opcode XI_RawMotion raw]
                        t).activity.mouse_distance.toRat
                      = t.activity.mouse_distance.toRat + 5)) := by
  rw [process_events_singleton (libm keymap) t d _ raw hd, switch_RawMotion,
    case_RawMotion_eq]
  have exact_growth : ∀ c : Double, c.isFinite = true →
      t.activity.mouse_distance.isFinite = true →
      ∀ y : Double, y.isFinite = true →
        y.toRat = t.activity.mouse_distance.toRat + c.toRat →
        (t.activity.mouse_distance + c).isFinite = true
          ∧ (t.activity.mouse_distance + c).toRat
              = t.activity.mouse_distance.toRat + c.toRat := by
    intro c hc hx y hy hsum
    have h := Double.add_exact _ c y hx hc hy (Double.scaled_of_toRat _ _ _ hsum)
    exact ⟨h.1, Double.toRat_add_of_scaled _ _ h.2⟩
  refine ⟨rfl, ?_, ?_⟩
  · intro h0 h1 hv
    have hx : packed_dx raw = Double.ofNat 3 := by simp [packed_dx, h0, hv]
    have hy : packed_dy raw = 0 := by simp [packed_dy, h1]
    have hsq : (libm keymap).sqrt (packed_dx raw * packed_dx raw
        + packed_dy raw * packed_dy raw) = Double.ofNat 3 := by
      rw [hx, hy]
      exact Double.sqrt_three
    rw [hsq]
    refine ⟨rfl, fun hfin y hyfin hsum => ?_⟩
    have h3 := exact_growth (Double.ofNat 3) (by decide) hfin y hyfin
      (by rw [Double.toRat_three]; exact hsum)
    rw [Double.toRat_three] at h3
    exact h3
  · intro h0 h1 hv0 hv1
    have hx : packed_dx raw = Double.ofNat 3 := by simp [packed_dx, h0, hv0]
    have hy : packed_dy raw = Double.ofNat 4 := by simp [packed_dy, h0, h1, hv1]
    have hsq : (libm keymap).sqrt (packed_dx raw * packed_dx raw
        + packed_dy raw * packed_dy raw) = Double.ofNat 5 := by
      rw [hx, hy]
      exact Double.sqrt_three_four
    rw [hsq]
    refine ⟨rfl, fun hfin y hyfin hsum => ?_⟩
    have h5 := exact_growth (Double.ofNat 5) (by decide) hfin y hyfin
      (by rw [Double.toRat_five]; exact hsum)
    rw [Double.toRat_five] at h5
    exact h5

/-- C5 (amended): for every counter state and every queue of pending events in
which each `int` counter leaves room for one increment per pending event,
`mouse_distance` and `scroll_amount` are not NaN, `mouse_distance` is not `-∞`
and no motion event decodes a NaN displacement, each of `key_count`,
`enter_key_count`, `left_click_count`, `right_click_count`, `mouse_distance` and
`scroll_amount` is after `process_events` at least its value before. -/
theorem counters_non_decreasing_in_range (keymap : Int → Nat → Nat → Nat)
    (t : Tracker CInt Double) (pending : List (XEvent Double))
    (hk : t.activity.key_count.val + (pending.length : Int) ≤ INT_MAX)
    (he : t.activity.enter_key_count.val + (pending.length : Int) ≤ INT_MAX)
    (hl : t.activity.left_click_count.val + (pending.length : Int) ≤ INT_MAX)
    (hr : t.activity.right_click_count.val + (pending.length : Int) ≤ INT_MAX)
    (hm : t.activity.mouse_distance.isNaN = false)
    (hm' : t.activity.mouse_distance ≠ Double.inf true)
    (hs : t.activity.scroll_amount.isNaN = false)
    (hv : ∀ ev ∈ pending, ∀ raw, ev.data = some raw → ev.evtype = (XI_RawMotion : Int) →
      (packed_dx raw).isNaN = false ∧ (packed_dy raw).isNaN = false) :
    t.activity.key_count ≤ (process_events (libm keymap) pending t).activity.key_count
      ∧ t.activity.enter_key_count
          ≤ (process_events (libm keymap) pending t).activity.enter_key_count
      ∧ t.activity.left_click_count
          ≤ (process_events (libm keymap) pending t).activity.left_click_count
      ∧ t.activity.right_click_count
          ≤ (process_events (libm keymap) pending t).activity.right_click_count
      ∧ t.activity.mouse_distance
          ≤ (process_events (libm keymap) pending t).activity.mouse_distance
      ∧ t.activity.scroll_amount
          ≤ (process_events (libm keymap) pending t).activity.scroll_amount := by
  cases hdisp : t.display with
  | none =>
    rw [process_events_display_none _ pending t hdisp]
    exact counters_le_same _ ⟨hm, hm', hs⟩
  | some d =>
    rw [process_events_display_some _ pending t d hdisp]
    exact foldl_loop_body_machine keymap pending t ⟨hk, he, hl, hr⟩ ⟨hm, hm', hs⟩ hv

end MachineProperties

/-! ## The properties at concrete inputs -/

section Witnesses

/-- Mask byte 3 (axes 0 and 1) with values 3 and 4, and mask bytes 7, 1 (axes 0,
1, 2 and 8) with the same first two values, add the same distance. -/
theorem motion_dense_packing_witness :
    XIMaskIsSet [7, 1] 0 = XIMaskIsSet [3] 0
      ∧ XIMaskIsSet [7, 1] 1 = XIMaskIsSet [3] 1
      ∧ case_RawMotion (libm sample_keymap)
            (sample_raw 0 [7, 1]
              [Double.ofNat 3, Double.ofNat 4, Double.ofNat 9, Double.ofNat 9])
            (sample_tracker CInt Double).activity
          = case_RawMotion (libm sample_keymap)
              (sample_raw 0 [3] [Double.ofNat 3, Double.ofNat 4])
              (sample_tracker CInt Double).activity :=
  ⟨by decide, by decide,
    (motion_dense_packing (libm sample_keymap)
      (sample_raw 0 [3] [Double.ofNat 3, Double.ofNat 4])
      (sample_tracker CInt Double).activity).2.2.2
      (sample_raw 0 [7, 1] [Double.ofNat 3, Double.ofNat 4, Double.ofNat 9, Double.ofNat 9])
      (by decide) (by decide) rfl rfl⟩

/-- From a distance of `0.0`, where the sums are exact: axis 0 alone with value
`3.0` gives `3.0`, and axes 0 and 1 with values `3.0` and `4.0` give `5.0`. -/
theorem motion_adds_rounded_distance_witness :
    (sample_tracker CInt Double).display = some sample_display
      ∧ (XIMaskIsSet [1] 0 = true ∧ XIMaskIsSet [1] 1 = false
          ∧ (Double.ofNat 3).toRat
              = (sample_tracker CInt Double).activity.mouse_distance.toRat + 3
          ∧ (process_events (libm sample_keymap) [motion_event [1] [Double.ofNat 3]]
                (sample_tracker CInt Double)).activity.mouse_distance.toRat
              = (sample_tracker CInt Double).activity.mouse_distance.toRat + 3)
      ∧ (XIMaskIsSet [3] 0 = true ∧ XIMaskIsSet [3] 1 = true
          ∧ (Double.ofNat 5).toRat
              = (sample_tracker CInt Double).activity.mouse_distance.toRat + 5
          ∧ (process_events (libm sample_keymap)
                [motion_event [3] [Double.ofNat 3, Double.ofNat 4]]
                (sample_tracker CInt Double)).activity.mouse_distance.toRat
              = (sample_tracker CInt Double).activity.mouse_distance.toRat + 5) :=
  have hsum3 : (Double.ofNat 3).toRat
      = (sample_tracker CInt Double).activity.mouse_distance.toRat + 3 := by
    show (Double.ofNat 3).toRat = (0 : Double).toRat + 3
    rw [Double.toRat_three, Double.toRat_zero]
    norm_num
  have hsum5 : (Double.ofNat 5).toRat
      = (sample_tracker CInt Double).activity.mouse_distance.toRat + 5 := by
    show (Double.ofNat 5).toRat = (0 : Double).toRat + 5
    rw [Double.toRat_five, Double.toRat_zero]
    norm_num
  ⟨rfl,
    ⟨by decide, by decide, hsum3,
      (((motion_adds_rounded_distance sample_keymap (sample_tracker CInt Double)
          sample_display (sample_raw 0 [1] [Double.ofNat 3]) rfl).2.1
          (by decide) (by decide) rfl).2
        (by decide) (Double.ofNat 3) (by decide) hsum3).2⟩,
    ⟨by decide, by decide, hsum5,
      (((motion_adds_rounded_distance sample_keymap (sample_tracker CInt Double)
          sample_display (sample_raw 0 [3] [Double.ofNat 3, Double.ofNat 4]) rfl).2.2
          (by decide) (by decide) rfl rfl).2
        (by decide) (Double.ofNat 5) (by decide) hsum5).2⟩⟩

/-- C3 (counterexample): after one diagonal motion (`dx = dy = 1.0`)
`mouse_distance` is the double nearest to the square root of 2; a motion with
only axis 0 present and `dx = 3.0` then raises it by `3 - 2^-52`, and a motion
with `dx = 3.0`, `dy = 4.0` by `5 - 2^-52`: not by exactly `3.0` and `5.0`. -/
theorem motion_increase_is_rounded :
    after_diagonal.activity.mouse_distance = Double.ofBits 0x3FF6A09E667F3BCD
      ∧ (process_events (libm sample_keymap) [motion_event [1] [Double.ofNat 3]]
            after_diagonal).activity.mouse_distance.toRat
          - after_diagonal.activity.mouse_distance.toRat = 3 - 1 / 2 ^ 52
      ∧ (process_events (libm sample_keymap) [motion_event [1] [Double.ofNat 3]]
            after_diagonal).activity.mouse_distance.toRat
          - after_diagonal.activity.mouse_distance.toRat ≠ 3
      ∧ (process_events (libm sample_keymap)
            [motion_event [3] [Double.ofNat 3, Double.ofNat 4]]
            after_diagonal).activity.mouse_distance.toRat
          - after_diagonal.activity.mouse_distance.toRat = 5 - 1 / 2 ^ 52
      ∧ (process_events (libm sample_keymap)
            [motion_event [3] [Double.ofNat 3, Double.ofNat 4]]
            after_diagonal).activity.mouse_distance.toRat
          - after_diagonal.activity.mouse_distance.toRat ≠ 5 := by
  have hold : after_diagonal.activity.mouse_distance
      = Double.fin false (6369051672525773 * 2 ^ 1022) (by decide) := by decide
  have h3 : (process_events (libm sample_keymap) [motion_event [1] [Double.ofNat 3]]
      after_diagonal).activity.mouse_distance
      = Double.fin false (4969962638659315 * 2 ^ 1024) (by decide) := by decide
  have h5 : (process_events (libm sample_keymap)
      [motion_event [3] [Double.ofNat 3, Double.ofNat 4]]
      after_diagonal).activity.mouse_distance
      = Double.fin false (7221762452344563 * 2 ^ 1024) (by decide) := by decide
  have e3 : (Double.fin false (4969962638659315 * 2 ^ 1024) (by decide)).toRat
      - (Double.fin false (6369051672525773 * 2 ^ 1022) (by decide)).toRat
      = 3 - 1 / 2 ^ 52 := by
    simp only [Double.toRat, Double.scaled]
    norm_num
  have e5 : (Double.fin false (7221762452344563 * 2 ^ 1024) (by decide)).toRat
      - (Double.fin false (6369051672525773 * 2 ^ 1022) (by decide)).toRat
      = 5 - 1 / 2 ^ 52 := by
    simp only [Double.toRat, Double.scaled]
    norm_num
  rw [h3, h5, hold]
  refine ⟨by decide, e3, ?_, e5, ?_⟩
  · rw [e3]
    norm_num
  · rw [e5]
    norm_num

/-- A queue of one key press, one motion and one scroll step on the sample
tracker lowers none of its counters. -/
theorem counters_non_decreasing_in_range_witness :
    (sample_tracker CInt Double).activity.key_count.val + 3 ≤ INT_MAX
      ∧ (sample_tracker CInt Double).activity.mouse_distance.isNaN = false
      ∧ counters_le (sample_tracker CInt Double).activity
          (process_events (libm sample_keymap)
            [key_event 36, motion_event [3] [Double.ofNat 3, Double.ofNat 4], button_event 5]
            (sample_tracker CInt Double)).activity :=
  ⟨by decide, by decide,
    counters_non_decreasing_in_range sample_keymap (sample_tracker CInt Double)
      [key_event 36, motion_event [3] [Double.ofNat 3, Double.ofNat 4], button_event 5]
      (by decide) (by decide) (by decide) (by decide) (by decide) (by decide) (by decide)
      (by decide)⟩

/-- C5 (counterexample): a key press at `key_count = INT_MAX` leaves `INT_MIN`;
a NaN in `mouse_distance` or `scroll_amount` is not at least itself; a motion
with `dx = +∞` turns a `mouse_distance` of `-∞` into a NaN; and a motion with a
NaN value turns a `mouse_distance` of `0.0` into a NaN.  In each case the counter
afterwards is not at least its value before. -/
theorem counters_can_decrease :
    ¬ (tracker_at_INT_MAX.activity.key_count
        ≤ (process_events (libm sample_keymap) [key_event 38]
            tracker_at_INT_MAX).activity.key_count)
      ∧ (process_events (libm sample_keymap) [key_event 38]
            tracker_at_INT_MAX).activity.key_count.val = INT_MIN
      ∧ ¬ ((tracker_with_distance Double.nan).activity.mouse_distance
          ≤ (process_events (libm sample_keymap) []
              (tracker_with_distance Double.nan)).activity.mouse_distance)
      ∧ ¬ ((tracker_with_scroll Double.nan).activity.scroll_amount
          ≤ (process_events (libm sample_keymap) []
              (tracker_with_scroll Double.nan)).activity.scroll_amount)
      ∧ ¬ ((tracker_with_distance (Double.inf true)).activity.mouse_distance
          ≤ (process_events (libm sample_keymap) [motion_event [1] [Double.inf false]]
              (tracker_with_distance (Double.inf true))).activity.mouse_distance)
      ∧ ¬ ((sample_tracker CInt Double).activity.mouse_distance
          ≤ (process_events (libm sample_keymap) [motion_event [1] [Double.nan]]
              (sample_tracker CInt Double)).activity.mouse_distance) := by
  decide

/-- The scenario of the specification on the machine: after a successful
`init_tracking`, one key press resolving to Return, one motion with `dx = 1`,
`dy = 0`, one press of button 1 and one of button 4 are handled in one call. -/
theorem spec_scenario :
    get_extended_activity_data
        (process_events (libm sample_keymap)
          [key_event 36, motion_event [3] [1, 0], button_event 1, button_event 4]
          (init_tracking
            { XOpenDisplay := some 1, XQueryExtension_present := true,
              XQueryExtension_opcode := 131, XIQueryVersion := Success }
            (initial : Tracker CInt Double)).2)
      = (1, 1, 1, 0, 1, 1) := by
  decide

end Witnesses

end ActivityTracker
